import Mathlib

/-!
# Verification of the pyFreeFem text-protocol core (`pyFreeFem/FreeFemIO.py`)

This development shallowly embeds the mesh/matrix text-protocol core of the
repository: Python strings are modelled as `List Char`, Python exceptions as
`Option`, printed diagnostics as boolean fields of the result, Python `float`
values as exact rationals (`Rat`), and NumPy integer/float scalars as
`Int`/`Rat`.  Each definition mirrors one function (or one self-contained
block) of `pyFreeFem/FreeFemIO.py`; deviations forced by the modelling are
recorded in the doc comments.
-/

/-- Characters Python's `str.split()` and `str.strip()` treat as whitespace
(the ASCII ones; the protocol text is ASCII). -/
def isPySpace (c : Char) : Bool :=
  c = ' ' || c = '\t' || c = '\n' || c = '\r' || c = '\x0b' || c = '\x0c'

/-- Split a character list at every separator character (a character
satisfying `p`), removing the separators and keeping empty segments,
like Python's `str.split(sep)` for a one-character `sep`. -/
def splitP (p : Char → Bool) : List Char → List (List Char)
  | [] => [[]]
  | c :: rest =>
    if p c then [] :: splitP p rest
    else
      match splitP p rest with
      | [] => [[c]]
      | seg :: segs => (c :: seg) :: segs

/-- Python `s.split('\n')`. -/
def pyLines (s : List Char) : List (List Char) :=
  splitP (fun c => c = '\n') s

/-- Python `s.split()` (no argument): split on whitespace runs and drop
empty tokens. -/
def wsSplit (s : List Char) : List (List Char) :=
  (splitP isPySpace s).filter (fun l => !l.isEmpty)

/-- Fuelled worker for `pySplitOn`; the fuel only has to dominate the
length of the list being split. -/
def pySplitOnAuxF (d : Char) (ds : List Char) : Nat → List Char → List (List Char)
  | _, [] => [[]]
  | 0, s => [s]
  | fuel + 1, c :: rest =>
    if (d :: ds).isPrefixOf (c :: rest) then
      [] :: pySplitOnAuxF d ds fuel (rest.drop ds.length)
    else
      match pySplitOnAuxF d ds fuel rest with
      | [] => [[c]]
      | seg :: segs => (c :: seg) :: segs

/-- Python `s.split(sep)` for a multi-character separator: split at every
non-overlapping occurrence of `sep`, scanning left to right.  Python raises
`ValueError` on an empty separator; that case never arises here (the
separators used always end in a newline) and is mapped to `[s]`. -/
def pySplitOn (sep s : List Char) : List (List Char) :=
  match sep with
  | [] => [s]
  | d :: ds => pySplitOnAuxF d ds s.length s

/-- Whether `sep` occurs as a contiguous subsequence of `s`. -/
def containsSeq (sep : List Char) : List Char → Bool
  | [] => sep.isEmpty
  | c :: rest => sep.isPrefixOf (c :: rest) || containsSeq sep rest

/-- Python `'sep'.join(strings)`. -/
def joinSep (sep : List Char) : List (List Char) → List Char
  | [] => []
  | [l] => l
  | l :: ls => l ++ sep ++ joinSep sep ls

/-- Python `s.strip()`: remove leading and trailing whitespace. -/
def pyStrip (s : List Char) : List Char :=
  ((s.dropWhile isPySpace).reverse.dropWhile isPySpace).reverse

/-- Numeric value of a decimal digit character. -/
def digitVal (c : Char) : Nat := c.toNat - '0'.toNat

/-- Decimal digit character for a value below ten. -/
def digitChar (d : Nat) : Char := Char.ofNat ('0'.toNat + d)

/-- Value of a list of decimal digit characters, most significant first. -/
def parseDigits (l : List Char) : Nat :=
  l.foldl (fun a c => 10 * a + digitVal c) 0

/-- Parse a non-empty all-digit token as a natural number. -/
def pyNatDigits? (l : List Char) : Option Nat :=
  if l ≠ [] ∧ l.all Char.isDigit then some (parseDigits l) else none

/-- Model of Python `int(token)` on protocol tokens: optional surrounding
whitespace, an optional sign, then decimal digits.  (Python additionally
accepts underscores between digits and non-ASCII digits; the protocol never
produces those, and they are outside this model.) -/
def pyInt? (s : List Char) : Option Int :=
  match pyStrip s with
  | [] => none
  | c :: rest =>
    if c = '+' then (pyNatDigits? rest).map Int.ofNat
    else if c = '-' then (pyNatDigits? rest).map (fun n => -(n : Int))
    else (pyNatDigits? (c :: rest)).map Int.ofNat

/-- Exponent part of a Python float literal: optional sign then digits. -/
def pyExp? (l : List Char) : Option Int :=
  match l with
  | [] => none
  | c :: rest =>
    if c = '+' then (pyNatDigits? rest).map Int.ofNat
    else if c = '-' then (pyNatDigits? rest).map (fun n => -(n : Int))
    else (pyNatDigits? (c :: rest)).map Int.ofNat

/-- Fold a decimal exponent into an unsigned value represented as
`n / 10 ^ shift`. -/
def applyExp (n shift : Nat) (ex : Int) : Nat × Nat :=
  if 0 ≤ ex then (n * 10 ^ ex.toNat, shift) else (n, shift + (-ex).toNat)

/-- Unsigned body of a Python float literal: `digits [. digits] [exp]` or
`. digits [exp]`.  The value is returned as a pair `(n, k)` standing for
`n / 10 ^ k` (kept in integer form so that the final rational is built in
one step). -/
def pyFloatBody? (l : List Char) : Option (Nat × Nat) :=
  let intPart := l.takeWhile Char.isDigit
  let rest1 := l.dropWhile Char.isDigit
  match rest1 with
  | [] => if intPart.isEmpty then none else some (parseDigits intPart, 0)
  | c :: rest2 =>
    if c = '.' then
      let fracPart := rest2.takeWhile Char.isDigit
      let rest3 := rest2.dropWhile Char.isDigit
      if intPart.isEmpty && fracPart.isEmpty then none
      else
        let mant := parseDigits intPart * 10 ^ fracPart.length + parseDigits fracPart
        match rest3 with
        | [] => some (mant, fracPart.length)
        | e :: rest4 =>
          if e = 'e' ∨ e = 'E' then
            (pyExp? rest4).map (applyExp mant fracPart.length)
          else none
    else if (c = 'e' ∨ c = 'E') && !intPart.isEmpty then
      (pyExp? rest2).map (applyExp (parseDigits intPart) 0)
    else none

/-- Model of Python `float(token)` on protocol tokens: optional surrounding
whitespace, optional sign, then a decimal/scientific literal, valued exactly
in `Rat`.  (`inf`/`nan` spellings and underscores are outside this model;
the solver's dumps never contain them.) -/
def pyFloat? (s : List Char) : Option Rat :=
  match pyStrip s with
  | [] => none
  | c :: rest =>
    if c = '+' then (pyFloatBody? rest).map (fun p => Rat.divInt p.1 (10 ^ p.2))
    else if c = '-' then (pyFloatBody? rest).map (fun p => Rat.divInt (-(p.1 : Int)) (10 ^ p.2))
    else (pyFloatBody? (c :: rest)).map (fun p => Rat.divInt p.1 (10 ^ p.2))

/-- Python `int(x)` applied to a float value: truncation toward zero. -/
def pyTrunc (q : Rat) : Int :=
  if 0 ≤ q.num then ((q.num.toNat / q.den : Nat) : Int)
  else -(((-q.num).toNat / q.den : Nat) : Int)

/-- First index at which `p` holds, like Python `list.index` wrapped in
`Option` (Python raises `ValueError` when the element is absent). -/
def pyFindIdx? (p : α → Bool) : List α → Option Nat
  | [] => none
  | x :: xs => if p x then some 0 else (pyFindIdx? p xs).map (· + 1)

/-- Option-valued sequential map: the whole computation fails as soon as one
element fails, like a Python loop whose body may raise. -/
def optMapM (f : α → Option β) : List α → Option (List β)
  | [] => some []
  | a :: as =>
    match f a, optMapM f as with
    | some b, some bs => some (b :: bs)
    | _, _ => none

/-- A cell of the table produced by `loadstr`: a converted number or, when
conversion fails, the raw token text. -/
inductive Cell where
  | int : Int → Cell
  | float : Rat → Cell
  | raw : List Char → Cell
deriving DecidableEq

/-- The per-token `conversion` closure of `loadstr` (lines 180–196): try the
target conversion, return the raw token on failure. -/
def pyConversion (dtype : String) (x : List Char) : Cell :=
  if dtype = "float" then
    match pyFloat? x with
    | some q => Cell.float q
    | none => Cell.raw x
  else if dtype = "int" then
    match pyInt? x with
    | some i => Cell.int i
    | none => Cell.raw x
  else Cell.raw x

/-- The per-line tokenisation of `loadstr`: `data_line.split(delimiter)`,
which is whitespace splitting when the delimiter is `None`. -/
def tokensOf (delimiter : Option (List Char)) (line : List Char) : List (List Char) :=
  match delimiter with
  | none => wsSplit line
  | some d => pySplitOn d line

/-- `loadstr` (lines 173–203): split into lines, split each line on
whitespace (or the given delimiter), convert each token leniently.
The resulting `np.array(data)` is modelled by the list of rows. -/
def loadstr (data_str : List Char) (delimiter : Option (List Char))
    (dtype : String) (skip_rows : Nat) : List (List Cell) :=
  ((pyLines data_str).drop skip_rows).map (fun line =>
    (tokensOf delimiter line).map (pyConversion dtype))

/-- `parse_FreeFem_output` (lines 40–42): `FreeFem_str.split(flag + '\n')[1]`.
The Python `IndexError` raised when the flag does not occur is modelled as
`none`. -/
def parse_FreeFem_output (FreeFem_str flag : List Char) : Option (List Char) :=
  (pySplitOn (flag ++ ['\n']) FreeFem_str)[1]?

/-- All rows of a decoded table have the same length (the shapes on which
NumPy builds a two-dimensional array). -/
def rectangularTable (rows : List (List Cell)) : Bool :=
  rows.all (fun r => r.length = (rows.headD []).length)

/-- `FreeFem_str_to_vector` (lines 73–74): drop the last character, decode
with `loadstr`, flatten.  NumPy's `flatten` concatenates the rows of the
rectangular tables the protocol emits; a ragged table would instead produce
a one-dimensional object array of row lists, a degenerate shape this model
reports as `none`. -/
def FreeFem_str_to_vector (Freefem_str : List Char) (dtype : String) : Option (List Cell) :=
  if rectangularTable (loadstr Freefem_str.dropLast none dtype 0) then
    some (loadstr Freefem_str.dropLast none dtype 0).flatten
  else none

/-- A triangle's stored node order, as read from the connectivity table. -/
abbrev Tri3 : Type := Int × Int × Int

/-- The directed edge of a triangle at local slot 0, 1 or 2: the node
orderings `[0,1]`, `[1,2]`, `[-1,0]` tried by `find_triangle_index`
(column `-1` of a three-column array is column 2). -/
def slotPair (t : Tri3) : Nat → Int × Int
  | 0 => (t.1, t.2.1)
  | 1 => (t.2.1, t.2.2)
  | _ => (t.2.2, t.1)

/-- The triangle's node list, as `triangles[triangle_index].tolist()`. -/
def triNodes (t : Tri3) : List Int := [t.1, t.2.1, t.2.2]

/-- `find_triangle_index` (lines 111–122): for each node ordering in turn,
look for the first triangle whose directed edge at that slot equals
`(start_node, end_node)`; the `try/except/pass` around `list.index` is
modelled by the `Option`. -/
def find_triangle_index (triangles : List Tri3) (start_node end_node : Int) : Option Nat :=
  match pyFindIdx? (fun t => decide (slotPair t 0 = (start_node, end_node))) triangles with
  | some i => some i
  | none =>
    match pyFindIdx? (fun t => decide (slotPair t 1 = (start_node, end_node))) triangles with
    | some i => some i
    | none => pyFindIdx? (fun t => decide (slotPair t 2 = (start_node, end_node))) triangles

/-- Python `triangles[i]` for an index produced by `find_triangle_index`
(always in range there). -/
def getTri (triangles : List Tri3) (i : Nat) : Tri3 := triangles.getD i (0, 0, 0)

/-- Python `list.index` for a node that is present (in the code path that
uses it, `start_node` is always a node of the matched triangle, so
`list.index` cannot raise; absence is mapped to the list length). -/
def pyIndex (a : Int) (l : List Int) : Nat :=
  (pyFindIdx? (fun x => decide (x = a)) l).getD l.length

/-- Result of `FreeFem_edge_to_boundary_edge`: the returned dictionary
entries, plus whether the `Reversing edge …` and `Could not find boundary
edge …` diagnostics were printed. -/
structure EdgeResolution where
  mapping : List ((Nat × Nat) × Int)
  reversedMsg : Bool
  notFoundMsg : Bool
deriving DecidableEq

/-- `FreeFem_edge_to_boundary_edge` (lines 126–146): resolve a boundary edge
`(start_node, end_node, label)` to `{(triangle_index, node_index): label}`,
retrying with the edge reversed when enabled, and returning the empty
dictionary when both searches fail. -/
def FreeFem_edge_to_boundary_edge (FreeFem_edge : Int × Int × Int)
    (triangles : List Tri3) (flip_reversed_edges : Bool) : EdgeResolution :=
  let start_node := FreeFem_edge.1
  let end_node := FreeFem_edge.2.1
  let label_integer := FreeFem_edge.2.2
  match find_triangle_index triangles start_node end_node with
  | some ti =>
    { mapping := [((ti, pyIndex start_node (triNodes (getTri triangles ti))), label_integer)],
      reversedMsg := false, notFoundMsg := false }
  | none =>
    if flip_reversed_edges then
      match find_triangle_index triangles end_node start_node with
      | some ti =>
        { mapping := [((ti, pyIndex end_node (triNodes (getTri triangles ti))), label_integer)],
          reversedMsg := true, notFoundMsg := false }
      | none => { mapping := [], reversedMsg := true, notFoundMsg := true }
    else { mapping := [], reversedMsg := false, notFoundMsg := true }

/-- Python `dict` insertion: overwrite in place when the key exists,
append otherwise. -/
def dictInsert (d : List ((Nat × Nat) × Int)) (kv : (Nat × Nat) × Int) :
    List ((Nat × Nat) × Int) :=
  if d.any (fun p => decide (p.1 = kv.1)) then
    d.map (fun p => if p.1 = kv.1 then (p.1, kv.2) else p)
  else d ++ [kv]

/-- The boundary-edge accumulation loop of `FreeFem_str_to_mesh`
(lines 94–98): start from the empty dictionary and `update` it with each
edge's resolution in turn. -/
def build_boundary_edges (edges : List (Int × Int × Int)) (triangles : List Tri3) :
    List ((Nat × Nat) × Int) :=
  edges.foldl
    (fun acc e => (FreeFem_edge_to_boundary_edge e triangles true).mapping.foldl dictInsert acc)
    []

/-- Whether the directed pair `(a, b)` occurs at some slot of some triangle
of the stored connectivity. -/
def pairOccurs (triangles : List Tri3) (a b : Int) : Bool :=
  triangles.any (fun t =>
    decide (slotPair t 0 = (a, b)) || decide (slotPair t 1 = (a, b)) ||
    decide (slotPair t 2 = (a, b)))

/-- The directed pair `(a, b)` is stored at slot `s` of triangle `t`. -/
def occursAt (triangles : List Tri3) (a b : Int) (t s : Nat) : Prop :=
  t < triangles.length ∧ s < 3 ∧ slotPair (getTri triangles t) s = (a, b)

instance (triangles : List Tri3) (a b : Int) (t s : Nat) :
    Decidable (occursAt triangles a b t s) := by
  unfold occursAt; infer_instance

/-- A triangle's three stored nodes are pairwise distinct. -/
def nodesDistinct (t : Tri3) : Bool :=
  decide (t.1 ≠ t.2.1) && decide (t.2.1 ≠ t.2.2) && decide (t.1 ≠ t.2.2)

/-! ## The matrix decoder -/

/-- Line 58: `map(int, FreeFem_lines[3].split())` unpacked into four names;
a wrong token count or a failing conversion raises (`ValueError`), modelled
as `none`. -/
def parseHeader4 (l : List Char) : Option (Int × Int × Int × Int) :=
  match optMapM pyInt? (wsSplit l) with
  | some [a, b, c, d] => some (a, b, c, d)
  | _ => none

/-- Python `int(cell)` on a table cell: a float is truncated toward zero, a
raw token is re-parsed as an integer (raising, i.e. `none`, on failure). -/
def intOfCell : Cell → Option Int
  | Cell.int i => some i
  | Cell.float q => some (pyTrunc q)
  | Cell.raw s => pyInt? s

/-- Python `float(cell)` on a table cell. -/
def floatOfCell : Cell → Option Rat
  | Cell.int i => some (Rat.divInt i 1)
  | Cell.float q => some q
  | Cell.raw s => pyFloat? s

/-- The row of cells `loadstr` produces for one data line in float mode. -/
def rowCells (dl : List Char) : List Cell :=
  (wsSplit dl).map (pyConversion "float")

/-- What lines 59–62 do to one well-formed data line: three whitespace
tokens, float-converted by `loadstr`, then `int`, `int`, `float` per
column. -/
def decodeCoefLine (dl : List Char) : Option (Int × Int × Rat) :=
  match rowCells dl with
  | [a, b, c] =>
    match intOfCell a, intOfCell b, floatOfCell c with
    | some i, some j, some v => some (i, j, v)
    | _, _, _ => none
  | _ => none

/-- The `.T`-and-unpack step of line 59 (`I, J, coef = loadstr(...).T`): on
the rectangular three-column tables the protocol emits, the transpose
yields the three columns; any other shape makes the NumPy unpacking (or the
later per-element conversion) raise, modelled as `none`. -/
def unpack3 (rows : List (List Cell)) : Option (List (Cell × Cell × Cell)) :=
  optMapM (fun r =>
    match r with
    | [a, b, c] => some (a, b, c)
    | _ => none) rows

/-- Lines 59–62 without the final `- 1` shift: unpack the three columns and
convert them with `int`, `int`, `float` respectively. -/
def decodeTable (rows : List (List Cell)) : Option (List Int × List Int × List Rat) :=
  match unpack3 rows with
  | none => none
  | some trips =>
    match optMapM intOfCell (trips.map (fun t => t.1)),
          optMapM intOfCell (trips.map (fun t => t.2.1)),
          optMapM floatOfCell (trips.map (fun t => t.2.2)) with
    | some I, some J, some coef => some (I, J, coef)
    | _, _, _ => none

/-- The coordinate-format sparse data and declared shape that
`FreeFem_str_to_matrix` hands to the (external) scipy sparse constructor:
`(coef, (I, J)), (nb_row, nb_col)`. -/
structure COOMatrix where
  nb_row : Int
  nb_col : Int
  I : List Int
  J : List Int
  coef : List Rat
deriving DecidableEq

/-- Modelled from the spec: `flagize` lives in `FreeFemTools/edpTools.py`,
which is not under `src/`; per the spec's sentinel-derivation contract and
the source comment on line 52 (`# '# MATRIX ' + matrix_name`) it prepends
a fixed tag to the name. -/
def flagize (matrix_name : List Char) : List Char :=
  "# MATRIX ".data ++ matrix_name

/-- `FreeFem_str_to_matrix` (lines 44–71): frame the section (by explicit
flag, by flagized matrix name, or not at all), read the header from the
fourth line of the framed text, decode the lines strictly between the
header and the last line as `row col value` triples, and shift the 1-based
wire indices down by one.  Python exceptions (missing section, missing
header line, header or data conversion failures, non-rectangular data) are
modelled as `none`. -/
def FreeFem_str_to_matrix (FreeFem_str : List Char)
    (matrix_name flag : Option (List Char)) : Option COOMatrix :=
  match (match flag with
         | some f => (parse_FreeFem_output FreeFem_str f).map pyLines
         | none =>
           match matrix_name with
           | some nm => (parse_FreeFem_output FreeFem_str (flagize nm)).map pyLines
           | none => some (pyLines FreeFem_str)) with
  | none => none
  | some FreeFem_lines =>
    match FreeFem_lines[3]? with
    | none => none
    | some header =>
      match parseHeader4 header with
      | none => none
      | some (nb_row, nb_col, _is_symmetric, _nb_coef) =>
        match decodeTable (loadstr (joinSep ['\n'] ((FreeFem_lines.drop 4).dropLast))
            none "float" 0) with
        | none => none
        | some (I, J, coef) =>
          some ⟨nb_row, nb_col, I.map (fun i => i - 1), J.map (fun j => j - 1), coef⟩

/-! ## The mesh serializer and the native-layout reader -/

/-- Fuelled decimal rendering worker; fuel `n` suffices for value `n`. -/
def natCharsF : Nat → Nat → List Char
  | 0, n => [digitChar (n % 10)]
  | fuel + 1, n =>
    if n < 10 then [digitChar n] else natCharsF fuel (n / 10) ++ [digitChar (n % 10)]

/-- Decimal rendering of a natural number, as Python `str`. -/
def natChars (n : Nat) : List Char := natCharsF n n

/-- Python `str(i)` for an integer (also the repr of a NumPy integer scalar
in the NumPy generation the code targets). -/
def reprInt (i : Int) : List Char :=
  if i < 0 then '-' :: natChars i.natAbs else natChars i.toNat

/-- Python `str(list_of_ints)`: `[a, b, c]` with `", "` between elements. -/
def pyStrList (xs : List Int) : List Char :=
  '[' :: (joinSep ", ".data (xs.map reprInt) ++ [']'])

/-- Python `s[1:-1]`. -/
def pySlice1m1 (l : List Char) : List Char := (l.drop 1).dropLast

/-- Python `s.replace(',', ' ')` (a one-character pattern, so a per-character
map). -/
def pyReplaceComma (l : List Char) : List Char :=
  l.map (fun ch => if ch = ',' then ' ' else ch)

/-- The `str(list)[1:-1].replace(',', ' ')` idiom `savemesh` uses for its
header, triangle and boundary-edge lines. -/
def bracketLine (xs : List Int) : List Char :=
  pyReplaceComma (pySlice1m1 (pyStrList xs))

/-- The mesh entity as far as `savemesh` reads it: coordinates (of an
abstract coordinate type `α`, standing for the Python floats), node labels,
triangle connectivity and labels, and the `boundary_edges` dictionary
`{(triangle_index, node_index): label}` in insertion order. -/
structure Mesh (α : Type) where
  x : List α
  y : List α
  node_labels : List Int
  triangles : List Tri3
  triangle_labels : List Int
  boundary_edges : List ((Nat × Nat) × Int)

/-- Modelled from the spec: `TriMesh.get_boundary_edges` is not under
`src/`; per the spec it yields, for each `(triangle id, slot) ↦ label`
entry, the triangle's two endpoint node ids in edge order (slot `k` is the
edge from the `k`-th to the `(k+1 mod 3)`-th node) with the label. -/
def get_boundary_edges {α : Type} (m : Mesh α) : List (Int × Int × Int) :=
  m.boundary_edges.map (fun e =>
    ((slotPair (m.triangles.getD e.1.1 (0, 0, 0)) e.1.2).1,
     (slotPair (m.triangles.getD e.1.1 (0, 0, 0)) e.1.2).2, e.2))

/-- A node line of `savemesh` (line 160), without the trailing newline:
`str(x[i]) + ' ' + str(y[i]) + ' ' + str(node_labels[i])`. -/
def nodeLineBody {α : Type} [Inhabited α] (render : α → List Char) (m : Mesh α)
    (i : Nat) : List Char :=
  render (m.x.getD i default) ++ ' ' :: render (m.y.getD i default) ++
    ' ' :: reprInt (m.node_labels.getD i 0)

/-- A triangle line of `savemesh` (line 164), without the trailing newline:
`str(list(np.array(triangle) + 1))[1:-1].replace(',', ' ') + ' ' +
str(triangle_labels[i])`. -/
def triLineBody {α : Type} (m : Mesh α) (i : Nat) : List Char :=
  bracketLine [(m.triangles.getD i (0, 0, 0)).1 + 1,
    (m.triangles.getD i (0, 0, 0)).2.1 + 1,
    (m.triangles.getD i (0, 0, 0)).2.2 + 1] ++
    ' ' :: reprInt (m.triangle_labels.getD i 0)

/-- A boundary-edge line of `savemesh` (line 168), without the trailing
newline: `str(list(np.array(edge) + np.array([1, 1, 0])))[1:-1].replace(',', ' ')`. -/
def edgeLineBody (e : Int × Int × Int) : List Char :=
  bracketLine [e.1 + 1, e.2.1 + 1, e.2.2]

/-- The lines `savemesh` (lines 148–170) writes, in order: the
`nv nt ne` header (the same bracket idiom applied to the three lengths),
one line per node index, one line per triangle index, one line per entry of
`get_boundary_edges()`. -/
def savemesh_lines {α : Type} [Inhabited α] (render : α → List Char) (m : Mesh α) :
    List (List Char) :=
  bracketLine [(m.x.length : Int), (m.triangles.length : Int),
      (m.boundary_edges.length : Int)] ::
    ((List.range m.x.length).map (nodeLineBody render m) ++
     (List.range m.triangles.length).map (triLineBody m) ++
     (get_boundary_edges m).map edgeLineBody)

/-- The full text `savemesh` writes: each line followed by `'\n'`. -/
def savemesh_text {α : Type} [Inhabited α] (render : α → List Char) (m : Mesh α) :
    List Char :=
  ((savemesh_lines render m).map (fun l => l ++ ['\n'])).flatten

/-- Modelled from the spec: one node line of the native mesh layout,
`x y label`, whitespace-separated. -/
def parseNodeLine {α : Type} (parseCoord : List Char → Option α) (l : List Char) :
    Option (α × α × Int) :=
  match wsSplit l with
  | [tx, ty, tl] =>
    match parseCoord tx, parseCoord ty, pyInt? tl with
    | some x, some y, some lab => some (x, y, lab)
    | _, _, _ => none
  | _ => none

/-- Modelled from the spec: one triangle line of the native mesh layout,
`n0 n1 n2 region_label` with 1-based node ids shifted to 0-based on read. -/
def parseTriLine (l : List Char) : Option (Tri3 × Int) :=
  match wsSplit l with
  | [ta, tb, tc, tl] =>
    match pyInt? ta, pyInt? tb, pyInt? tc, pyInt? tl with
    | some a, some b, some c, some lab => some ((a - 1, b - 1, c - 1), lab)
    | _, _, _, _ => none
  | _ => none

/-- Modelled from the spec: one boundary-edge line of the native mesh
layout, `start_node end_node label` with 1-based node ids shifted to
0-based on read. -/
def parseEdgeLine (l : List Char) : Option (Int × Int × Int) :=
  match wsSplit l with
  | [ta, tb, tl] =>
    match pyInt? ta, pyInt? tb, pyInt? tl with
    | some a, some b, some lab => some (a - 1, b - 1, lab)
    | _, _, _ => none
  | _ => none

/-- Modelled from the spec: the `nv nt ne` header line of the native mesh
layout. -/
def parseHeader3 (l : List Char) : Option (Int × Int × Int) :=
  match optMapM pyInt? (wsSplit l) with
  | some [a, b, c] => some (a, b, c)
  | _ => none

/-- The raw structures read back from a native-layout mesh file. -/
structure ReadMesh (α : Type) where
  x : List α
  y : List α
  node_labels : List Int
  triangles : List Tri3
  triangle_labels : List Int
  edges : List (Int × Int × Int)
deriving DecidableEq

/-- Modelled from the spec: an equivalent reader of the solver's native
mesh file layout (the repository itself has no such reader under `src/`):
a header line of three integers `nv nt ne`, then `nv` node lines, `nt`
triangle lines and `ne` boundary-edge lines, whitespace-separated fields,
indices 1-based on disk and shifted to 0-based in memory. -/
def readNativeMesh {α : Type} (parseCoord : List Char → Option α) (text : List Char) :
    Option (ReadMesh α) :=
  match pyLines text with
  | [] => none
  | hline :: rest =>
    match parseHeader3 hline with
    | none => none
    | some (nv, nt, ne) =>
      match optMapM (parseNodeLine parseCoord) (rest.take nv.toNat),
            optMapM parseTriLine ((rest.drop nv.toNat).take nt.toNat),
            optMapM parseEdgeLine (((rest.drop nv.toNat).drop nt.toNat).take ne.toNat) with
      | some nodes, some tris, some edges =>
        if nodes.length = nv.toNat ∧ tris.length = nt.toNat ∧ edges.length = ne.toNat then
          some ⟨nodes.map (fun nd => nd.1), nodes.map (fun nd => nd.2.1),
            nodes.map (fun nd => nd.2.2), tris.map (fun t => t.1),
            tris.map (fun t => t.2), edges⟩
        else none
      | _, _, _ => none

/-! ## Lemmas about the search primitives -/

theorem pyFindIdx?_eq_none_iff {α : Type _} {p : α → Bool} :
    ∀ {l : List α}, pyFindIdx? p l = none ↔ ∀ x ∈ l, p x = false := by
  intro l
  induction l with
  | nil => simp [pyFindIdx?]
  | cons x xs ih =>
    by_cases h : p x
    · simp [pyFindIdx?, h]
    · simp only [pyFindIdx?, if_neg h, Option.map_eq_none', List.mem_cons]
      constructor
      · intro hn y hy
        rcases hy with rfl | hy
        · exact Bool.of_not_eq_true h
        · exact (ih.mp hn) y hy
      · intro hall
        exact ih.mpr (fun y hy => hall y (Or.inr hy))

theorem pyFindIdx?_eq_some_spec {α : Type _} {p : α → Bool} :
    ∀ {l : List α} {i : Nat}, pyFindIdx? p l = some i →
      ∃ x, l[i]? = some x ∧ p x = true := by
  intro l
  induction l with
  | nil => intro i h; simp [pyFindIdx?] at h
  | cons x xs ih =>
    intro i h
    by_cases hp : p x
    · simp only [pyFindIdx?, if_pos hp, Option.some.injEq] at h
      subst h
      exact ⟨x, by simp, hp⟩
    · simp only [pyFindIdx?, if_neg hp, Option.map_eq_some'] at h
      obtain ⟨j, hj, rfl⟩ := h
      obtain ⟨y, hy, hpy⟩ := ih hj
      exact ⟨y, by simpa using hy, hpy⟩

theorem find_triangle_index_eq_none (triangles : List Tri3) (a b : Int)
    (h : pairOccurs triangles a b = false) :
    find_triangle_index triangles a b = none := by
  have hall : ∀ t ∈ triangles,
      slotPair t 0 ≠ (a, b) ∧ slotPair t 1 ≠ (a, b) ∧ slotPair t 2 ≠ (a, b) := by
    intro t ht
    have := (List.any_eq_false).mp h t ht
    simp only [Bool.or_eq_true, decide_eq_true_eq, not_or] at this
    exact ⟨this.1.1, this.1.2, this.2⟩
  unfold find_triangle_index
  rw [pyFindIdx?_eq_none_iff.mpr (fun t ht => by simp [(hall t ht).1]),
    pyFindIdx?_eq_none_iff.mpr (fun t ht => by simp [(hall t ht).2.1]),
    pyFindIdx?_eq_none_iff.mpr (fun t ht => by simp [(hall t ht).2.2])]

theorem find_triangle_index_isSome (triangles : List Tri3) (a b : Int)
    (h : pairOccurs triangles a b = true) :
    ∃ i, find_triangle_index triangles a b = some i := by
  unfold find_triangle_index
  rcases h0 : pyFindIdx? (fun t => decide (slotPair t 0 = (a, b))) triangles with _ | i
  · rcases h1 : pyFindIdx? (fun t => decide (slotPair t 1 = (a, b))) triangles with _ | i
    · rcases h2 : pyFindIdx? (fun t => decide (slotPair t 2 = (a, b))) triangles with _ | i
      · exfalso
        obtain ⟨t, ht, hslot⟩ := List.any_eq_true.mp h
        simp only [Bool.or_eq_true, decide_eq_true_eq] at hslot
        rcases hslot with (hs | hs) | hs
        · exact absurd (pyFindIdx?_eq_none_iff.mp h0 t ht) (by simp [hs])
        · exact absurd (pyFindIdx?_eq_none_iff.mp h1 t ht) (by simp [hs])
        · exact absurd (pyFindIdx?_eq_none_iff.mp h2 t ht) (by simp [hs])
      · exact ⟨i, rfl⟩
    · exact ⟨i, rfl⟩
  · exact ⟨i, rfl⟩

theorem find_triangle_index_spec (triangles : List Tri3) (a b : Int) (i : Nat)
    (h : find_triangle_index triangles a b = some i) :
    ∃ t s, s < 3 ∧ triangles[i]? = some t ∧ slotPair t s = (a, b) := by
  unfold find_triangle_index at h
  rcases h0 : pyFindIdx? (fun t => decide (slotPair t 0 = (a, b))) triangles with _ | j <;>
    rw [h0] at h
  · rcases h1 : pyFindIdx? (fun t => decide (slotPair t 1 = (a, b))) triangles with _ | j <;>
      rw [h1] at h
    · obtain ⟨t, ht, hp⟩ := pyFindIdx?_eq_some_spec h
      exact ⟨t, 2, by omega, ht, by simpa using hp⟩
    · obtain rfl : j = i := by simpa using h
      obtain ⟨t, ht, hp⟩ := pyFindIdx?_eq_some_spec h1
      exact ⟨t, 1, by omega, ht, by simpa using hp⟩
  · obtain rfl : j = i := by simpa using h
    obtain ⟨t, ht, hp⟩ := pyFindIdx?_eq_some_spec h0
    exact ⟨t, 0, by omega, ht, by simpa using hp⟩

theorem pyIndex_slot (t : Tri3) (a b : Int) (s : Nat)
    (hd : nodesDistinct t = true) (hs : s < 3) (hp : slotPair t s = (a, b)) :
    pyIndex a (triNodes t) = s := by
  simp only [nodesDistinct, Bool.and_eq_true, decide_eq_true_eq] at hd
  obtain ⟨⟨h01, h12⟩, h02⟩ := hd
  match s, hs with
  | 0, _ =>
    obtain ⟨rfl, rfl⟩ : t.1 = a ∧ t.2.1 = b := by
      simpa [slotPair, Prod.ext_iff] using hp
    simp [pyIndex, pyFindIdx?, triNodes]
  | 1, _ =>
    obtain ⟨rfl, rfl⟩ : t.2.1 = a ∧ t.2.2 = b := by
      simpa [slotPair, Prod.ext_iff] using hp
    simp [pyIndex, pyFindIdx?, triNodes, h01]
  | 2, _ =>
    obtain ⟨rfl, rfl⟩ : t.2.2 = a ∧ t.1 = b := by
      simpa [slotPair, Prod.ext_iff] using hp
    simp [pyIndex, pyFindIdx?, triNodes, h02, h12]

theorem getTri_eq_of_getElem? {triangles : List Tri3} {i : Nat} {t : Tri3}
    (h : triangles[i]? = some t) :
    getTri triangles i = t ∧ i < triangles.length ∧ t ∈ triangles := by
  have hlt : i < triangles.length := by
    by_contra hge
    rw [List.getElem?_eq_none (by omega)] at h
    exact Option.noConfusion h
  rw [List.getElem?_eq_getElem hlt] at h
  have ht : triangles[i] = t := by injection h
  subst ht
  exact ⟨List.getD_eq_getElem triangles (0, 0, 0) hlt, hlt, List.getElem_mem hlt⟩

/-! ## Claims C1–C3: the boundary-edge resolver -/

/-- **C1, counterexample.**  For the degenerate stored triangle `(5, 5, 6)`
the directed pair `(5, 6)` occurs at slot 1 only, yet the resolver returns
the key `(0, 0)`: the slot is recomputed as the *first* index of the start
node in the triangle, which is 0 here, not the slot at which the pair
occurs.  This refutes the claim as stated, which promises the mapping
`{(triangle_id, slot): label}` for a slot holding the pair. -/
theorem claim_C1_counterexample :
    FreeFem_edge_to_boundary_edge (5, 6, -3) [(5, 5, 6)] true =
      { mapping := [((0, 0), -3)], reversedMsg := false, notFoundMsg := false } ∧
    slotPair (5, 5, 6) 0 ≠ (5, 6) ∧ slotPair (5, 5, 6) 1 = (5, 6) := by
  decide

/-- **C1, amended.**  For every triangle connectivity whose triangles each
have three pairwise-distinct nodes, and every boundary edge `(a, b, label)`
whose directed pair `(a, b)` is stored at some slot of some triangle, the
resolver returns exactly a singleton mapping `{(triangle_id, slot): label}`
for a `(triangle_id, slot)` at which the pair is stored, and emits no
reversal (and no not-found) diagnostic; in particular for triangles
`[[0,1,2]]` and edge `(1, 2, -3)` it returns `{(0, 1): -3}`. -/
theorem claim_C1_amended (triangles : List Tri3) (a b lab : Int)
    (hdist : ∀ t ∈ triangles, nodesDistinct t = true)
    (hocc : pairOccurs triangles a b = true) :
    (∃ ti s, occursAt triangles a b ti s ∧
      FreeFem_edge_to_boundary_edge (a, b, lab) triangles true =
        { mapping := [((ti, s), lab)], reversedMsg := false, notFoundMsg := false }) ∧
    FreeFem_edge_to_boundary_edge (1, 2, -3) [(0, 1, 2)] true =
      { mapping := [((0, 1), -3)], reversedMsg := false, notFoundMsg := false } := by
  refine ⟨?_, by decide⟩
  obtain ⟨i, hfind⟩ := find_triangle_index_isSome triangles a b hocc
  obtain ⟨t, s, hs3, hget, hsp⟩ := find_triangle_index_spec triangles a b i hfind
  obtain ⟨hgt, hlen, hmem⟩ := getTri_eq_of_getElem? hget
  have hidx : pyIndex a (triNodes t) = s := pyIndex_slot t a b s (hdist t hmem) hs3 hsp
  refine ⟨i, s, ⟨hlen, hs3, by rw [hgt]; exact hsp⟩, ?_⟩
  unfold FreeFem_edge_to_boundary_edge
  simp only [hfind, hgt, hidx]

/-- **C2.**  For every triangle connectivity and boundary edge given in
reversed orientation `(b, a, label)`, when `(a, b)` is stored at some slot
but `(b, a)` at none, the resolver returns the same mapping (same
`(triangle_id, slot)` key, identical label) as for `(a, b, label)` and
emits the reversal diagnostic, while the direct call emits none; in
particular for triangles `[[0,1,2]]` and edge `(2, 1, -3)` it returns
`{(0, 1): -3}` after one reversal retry. -/
theorem claim_C2 (triangles : List Tri3) (a b lab : Int)
    (hocc : pairOccurs triangles a b = true)
    (hrev : pairOccurs triangles b a = false) :
    ((FreeFem_edge_to_boundary_edge (b, a, lab) triangles true).mapping =
        (FreeFem_edge_to_boundary_edge (a, b, lab) triangles true).mapping ∧
      (FreeFem_edge_to_boundary_edge (b, a, lab) triangles true).reversedMsg = true ∧
      (FreeFem_edge_to_boundary_edge (a, b, lab) triangles true).reversedMsg = false) ∧
    FreeFem_edge_to_boundary_edge (2, 1, -3) [(0, 1, 2)] true =
      { mapping := [((0, 1), -3)], reversedMsg := true, notFoundMsg := false } := by
  refine ⟨?_, by decide⟩
  obtain ⟨i, hfind⟩ := find_triangle_index_isSome triangles a b hocc
  have hnone := find_triangle_index_eq_none triangles b a hrev
  unfold FreeFem_edge_to_boundary_edge
  simp [hfind, hnone]

/-- **C3.**  For every boundary edge whose node pair is stored in no
triangle in either orientation, resolution returns the empty mapping (with
the not-found diagnostic, after the reversal retry), and the boundary-edge
accumulation loop of the mesh reconstructor produces the same
`boundary_edges` dictionary as if the edge were absent from the input. -/
theorem claim_C3 (triangles : List Tri3) (a b lab : Int)
    (h1 : pairOccurs triangles a b = false)
    (h2 : pairOccurs triangles b a = false) :
    FreeFem_edge_to_boundary_edge (a, b, lab) triangles true =
      { mapping := [], reversedMsg := true, notFoundMsg := true } ∧
    ∀ pre post : List (Int × Int × Int),
      build_boundary_edges (pre ++ (a, b, lab) :: post) triangles =
        build_boundary_edges (pre ++ post) triangles := by
  have hn1 := find_triangle_index_eq_none triangles a b h1
  have hn2 := find_triangle_index_eq_none triangles b a h2
  have hres : FreeFem_edge_to_boundary_edge (a, b, lab) triangles true =
      { mapping := [], reversedMsg := true, notFoundMsg := true } := by
    unfold FreeFem_edge_to_boundary_edge
    simp [hn1, hn2]
  refine ⟨hres, fun pre post => ?_⟩
  unfold build_boundary_edges
  rw [List.foldl_append, List.foldl_append, List.foldl_cons, hres]
  rfl

/-- Witness for C1 (amended) at triangles `[[0,1,2]]`, edge `(1, 2, -3)`. -/
theorem claim_C1_amended_witness :
    ∃ ti s, occursAt [(0, 1, 2)] 1 2 ti s ∧
      FreeFem_edge_to_boundary_edge (1, 2, -3) [(0, 1, 2)] true =
        { mapping := [((ti, s), -3)], reversedMsg := false, notFoundMsg := false } :=
  (claim_C1_amended [(0, 1, 2)] 1 2 (-3) (by decide) (by decide)).1

/-- Witness for C2 at triangles `[[0,1,2]]`, reversed edge `(2, 1, -3)`. -/
theorem claim_C2_witness :
    (FreeFem_edge_to_boundary_edge (2, 1, -3) [(0, 1, 2)] true).mapping =
        (FreeFem_edge_to_boundary_edge (1, 2, -3) [(0, 1, 2)] true).mapping ∧
      (FreeFem_edge_to_boundary_edge (2, 1, -3) [(0, 1, 2)] true).reversedMsg = true ∧
      (FreeFem_edge_to_boundary_edge (1, 2, -3) [(0, 1, 2)] true).reversedMsg = false :=
  (claim_C2 [(0, 1, 2)] 1 2 (-3) (by decide) (by decide)).1

/-- Witness for C3 at triangles `[[0,1,2]]` and the unresolvable edge
`(5, 7, -1)`, inserted between two resolvable edges. -/
theorem claim_C3_witness :
    FreeFem_edge_to_boundary_edge (5, 7, -1) [(0, 1, 2)] true =
      { mapping := [], reversedMsg := true, notFoundMsg := true } ∧
    build_boundary_edges [(0, 1, -1), (5, 7, -1), (2, 0, -2)] [(0, 1, 2)] =
      build_boundary_edges [(0, 1, -1), (2, 0, -2)] [(0, 1, 2)] := by
  have h := claim_C3 [(0, 1, 2)] 5 7 (-1) (by decide) (by decide)
  exact ⟨h.1, h.2 [(0, 1, -1)] [(2, 0, -2)]⟩

/-! ## Lemmas about the sentinel splitter, and claim C6 -/

theorem isPrefixOf_append_self : ∀ (p t : List Char), p.isPrefixOf (p ++ t) = true := by
  intro p t
  induction p with
  | nil => cases t <;> rfl
  | cons c cs ih => simp [List.isPrefixOf, ih]

theorem exists_of_isPrefixOf : ∀ {p s : List Char}, p.isPrefixOf s = true →
    ∃ t, s = p ++ t := by
  intro p
  induction p with
  | nil => exact fun _ => ⟨_, rfl⟩
  | cons c cs ih =>
    intro s h
    cases s with
    | nil => simp [List.isPrefixOf] at h
    | cons e es =>
      rw [List.isPrefixOf, Bool.and_eq_true, beq_iff_eq] at h
      obtain ⟨rfl, h2⟩ := h
      obtain ⟨t, rfl⟩ := ih h2
      exact ⟨t, rfl⟩

theorem pySplitOnAuxF_fuel_irrel (d : Char) (ds : List Char) :
    ∀ (f g : Nat) (s : List Char), s.length ≤ f → s.length ≤ g →
      pySplitOnAuxF d ds f s = pySplitOnAuxF d ds g s := by
  intro f
  induction f with
  | zero =>
    intro g s hf _
    have : s = [] := List.eq_nil_of_length_eq_zero (by omega)
    subst this
    cases g <;> rfl
  | succ f ih =>
    intro g s hf hg
    cases s with
    | nil => cases g <;> rfl
    | cons c rest =>
      cases g with
      | zero => simp at hg
      | succ g =>
        simp only [pySplitOnAuxF]
        simp only [List.length_cons] at hf hg
        by_cases hp : (d :: ds).isPrefixOf (c :: rest) = true
        · rw [if_pos hp, if_pos hp,
            ih g (rest.drop ds.length)
              (by simp only [List.length_drop]; omega)
              (by simp only [List.length_drop]; omega)]
        · rw [if_neg hp, if_neg hp, ih g rest (by omega) (by omega)]

theorem pySplitOnAuxF_of_not_contains (d : Char) (ds : List Char) :
    ∀ (f : Nat) (s : List Char), s.length ≤ f → containsSeq (d :: ds) s = false →
      pySplitOnAuxF d ds f s = [s] := by
  intro f
  induction f with
  | zero =>
    intro s hf _
    have : s = [] := List.eq_nil_of_length_eq_zero (by omega)
    subst this; rfl
  | succ f ih =>
    intro s hf hc
    cases s with
    | nil => rfl
    | cons c rest =>
      rw [containsSeq, Bool.or_eq_false_iff] at hc
      simp only [pySplitOnAuxF]
      rw [ih rest (by simpa using hf) hc.2, if_neg (by rw [hc.1]; simp)]

theorem pySplitOnAuxF_first (d : Char) (ds : List Char) :
    ∀ (a : List Char) (f : Nat) (b : List Char), (a ++ (d :: ds) ++ b).length ≤ f →
      (∀ i < a.length, (d :: ds).isPrefixOf ((a ++ (d :: ds) ++ b).drop i) = false) →
      pySplitOnAuxF d ds f (a ++ (d :: ds) ++ b) =
        a :: pySplitOnAuxF d ds b.length b := by
  intro a
  induction a with
  | nil =>
    intro f b hf _
    cases f with
    | zero => exfalso; simp at hf
    | succ f =>
      have hfuel : b.length ≤ f := by simp at hf; omega
      show pySplitOnAuxF d ds (f + 1) (d :: (ds ++ b)) = [] :: pySplitOnAuxF d ds b.length b
      simp only [pySplitOnAuxF]
      rw [if_pos (show (d :: ds).isPrefixOf (d :: (ds ++ b)) = true from
            isPrefixOf_append_self (d :: ds) b),
        List.drop_left, pySplitOnAuxF_fuel_irrel d ds f b.length b hfuel (Nat.le_refl _)]
  | cons c a' ih =>
    intro f b hf hfirst
    cases f with
    | zero => exfalso; simp at hf
    | succ f =>
      have hp0 : (d :: ds).isPrefixOf (c :: (a' ++ (d :: ds) ++ b)) = false := by
        have := hfirst 0 (by simp)
        simpa using this
      show pySplitOnAuxF d ds (f + 1) (c :: (a' ++ (d :: ds) ++ b)) = _
      simp only [pySplitOnAuxF]
      rw [ih f b (by simp at hf ⊢; omega)
          (fun i hi => by simpa using hfirst (i + 1) (by simpa using Nat.succ_lt_succ hi)),
        if_neg (by rw [hp0]; simp)]

theorem pySplitOn_of_not_contains (sep s : List Char)
    (h : containsSeq sep s = false) : pySplitOn sep s = [s] := by
  cases sep with
  | nil => rfl
  | cons d ds => exact pySplitOnAuxF_of_not_contains d ds s.length s (Nat.le_refl _) h

theorem pySplitOn_first (d : Char) (ds : List Char) (a b : List Char)
    (h : ∀ i < a.length, (d :: ds).isPrefixOf ((a ++ (d :: ds) ++ b).drop i) = false) :
    pySplitOn (d :: ds) (a ++ (d :: ds) ++ b) = a :: pySplitOn (d :: ds) b := by
  show pySplitOnAuxF d ds (a ++ (d :: ds) ++ b).length (a ++ (d :: ds) ++ b) = _
  rw [pySplitOnAuxF_first d ds a _ b (Nat.le_refl _) h]
  rfl

theorem sentinel_cons (flag : List Char) : ∃ d ds, flag ++ ['\n'] = d :: ds := by
  cases flag with
  | nil => exact ⟨'\n', [], rfl⟩
  | cons x xs => exact ⟨x, xs ++ ['\n'], rfl⟩

/-- **C6.**  For every blob and flag, `parse_FreeFem_output` returns
everything after the first occurrence of the sentinel `flag + '\n'` up to
(but not including) the next occurrence of the sentinel — or up to the end
of the blob when the sentinel occurs only once — and signals an explicit
not-found failure (Python: `IndexError`; here: `none`) when the sentinel
never occurs.  "First occurrence" is expressed by the hypothesis that no
earlier position of the blob starts with the sentinel. -/
theorem claim_C6 (FreeFem_str flag : List Char) :
    (containsSeq (flag ++ ['\n']) FreeFem_str = false →
      parse_FreeFem_output FreeFem_str flag = none) ∧
    (∀ a b, FreeFem_str = a ++ (flag ++ ['\n']) ++ b →
      (∀ i < a.length, (flag ++ ['\n']).isPrefixOf (FreeFem_str.drop i) = false) →
      ((containsSeq (flag ++ ['\n']) b = false →
          parse_FreeFem_output FreeFem_str flag = some b) ∧
        (∀ c e, b = c ++ (flag ++ ['\n']) ++ e →
          (∀ i < c.length, (flag ++ ['\n']).isPrefixOf (b.drop i) = false) →
          parse_FreeFem_output FreeFem_str flag = some c))) := by
  obtain ⟨d, ds, hsep⟩ := sentinel_cons flag
  constructor
  · intro h
    unfold parse_FreeFem_output
    rw [pySplitOn_of_not_contains _ _ h]
    rfl
  · intro a b hsplit hfirst
    subst hsplit
    rw [hsep] at hfirst
    have hmain : pySplitOn (d :: ds) (a ++ (d :: ds) ++ b) =
        a :: pySplitOn (d :: ds) b := pySplitOn_first d ds a b hfirst
    constructor
    · intro hb
      rw [hsep] at hb
      unfold parse_FreeFem_output
      rw [hsep, hmain, pySplitOn_of_not_contains _ _ hb]
      rfl
    · intro c e hbsplit hbfirst
      rw [hsep] at hbsplit hbfirst
      have hb : pySplitOn (d :: ds) b = c :: pySplitOn (d :: ds) e := by
        subst hbsplit
        exact pySplitOn_first d ds c e hbfirst
      unfold parse_FreeFem_output
      rw [hsep, hmain, hb]
      simp

/-- Witness for C6: blob `"x# F\nabc# F\nz"`, section flag `"# F"`; the
framed text is `"abc"`, delimited by the two sentinel occurrences. -/
theorem claim_C6_witness :
    parse_FreeFem_output "x# F\nabc# F\nz".data "# F".data = some "abc".data :=
  ((claim_C6 "x# F\nabc# F\nz".data "# F".data).2 "x".data "abc# F\nz".data
    (by decide) (by decide)).2 "abc".data "z".data (by decide) (by decide)

/-! ## Claims C7 and C10: the lenient table decoder and the vector decoder -/

/-- **C7.**  For every input text and target type (`int` or `float`), the
table decoder `loadstr` produces one row per line and one cell per
whitespace- or delimiter-separated token, converting each token to the
target type when the conversion succeeds and leaving the original raw token
in place when it fails; the decoder is total (the Python `try/except`
around each conversion means it never raises on a conversion failure). -/
theorem claim_C7 (s : List Char) (delimiter : Option (List Char)) (dtype : String)
    (hd : dtype = "int" ∨ dtype = "float") :
    (loadstr s delimiter dtype 0).length = (pyLines s).length ∧
    ∀ (i : Nat) (line : List Char), (pyLines s)[i]? = some line →
      (loadstr s delimiter dtype 0)[i]? =
          some ((tokensOf delimiter line).map (pyConversion dtype)) ∧
      ∀ (j : Nat) (tok : List Char), (tokensOf delimiter line)[j]? = some tok →
        (dtype = "int" →
          (∀ k, pyInt? tok = some k →
            ((tokensOf delimiter line).map (pyConversion dtype))[j]? =
              some (Cell.int k)) ∧
          (pyInt? tok = none →
            ((tokensOf delimiter line).map (pyConversion dtype))[j]? =
              some (Cell.raw tok))) ∧
        (dtype = "float" →
          (∀ q, pyFloat? tok = some q →
            ((tokensOf delimiter line).map (pyConversion dtype))[j]? =
              some (Cell.float q)) ∧
          (pyFloat? tok = none →
            ((tokensOf delimiter line).map (pyConversion dtype))[j]? =
              some (Cell.raw tok))) := by
  clear hd
  refine ⟨by simp [loadstr], ?_⟩
  intro i line hline
  have hrow : (loadstr s delimiter dtype 0)[i]? =
      some ((tokensOf delimiter line).map (pyConversion dtype)) := by
    simp only [loadstr, List.drop_zero, List.getElem?_map, hline, Option.map_some']
  refine ⟨hrow, ?_⟩
  intro j tok htok
  have hcell : ((tokensOf delimiter line).map (pyConversion dtype))[j]? =
      some (pyConversion dtype tok) := by
    simp only [List.getElem?_map, htok, Option.map_some']
  constructor
  · rintro rfl
    exact ⟨fun k hk => by rw [hcell]; simp [pyConversion, hk],
      fun hk => by rw [hcell]; simp [pyConversion, hk]⟩
  · rintro rfl
    exact ⟨fun q hq => by rw [hcell]; simp [pyConversion, hq],
      fun hq => by rw [hcell]; simp [pyConversion, hq]⟩

/-- Witness for C7 on the text `"1 x"` in float mode: the numeric token is
converted, the non-numeric token is kept raw. -/
theorem claim_C7_witness :
    (loadstr "1 x".data none "float" 0).length = (pyLines "1 x".data).length ∧
    ∀ (i : Nat) (line : List Char), (pyLines "1 x".data)[i]? = some line →
      (loadstr "1 x".data none "float" 0)[i]? =
          some ((tokensOf none line).map (pyConversion "float")) ∧
      ∀ (j : Nat) (tok : List Char), (tokensOf none line)[j]? = some tok →
        ("float" = "int" →
          (∀ k, pyInt? tok = some k →
            ((tokensOf none line).map (pyConversion "float"))[j]? =
              some (Cell.int k)) ∧
          (pyInt? tok = none →
            ((tokensOf none line).map (pyConversion "float"))[j]? =
              some (Cell.raw tok))) ∧
        ("float" = "float" →
          (∀ q, pyFloat? tok = some q →
            ((tokensOf none line).map (pyConversion "float"))[j]? =
              some (Cell.float q)) ∧
          (pyFloat? tok = none →
            ((tokensOf none line).map (pyConversion "float"))[j]? =
              some (Cell.raw tok))) :=
  claim_C7 "1 x".data none "float" (Or.inr rfl)

/-- **C10.**  `FreeFem_str_to_vector` removes exactly the final character of
its input unconditionally — the result on `s ++ [c]` does not depend on `c`
at all, newline or not — and on newline-terminated input it returns the
flattened decoding of all the lines before the trailing newline (for the
rectangular tables the protocol emits); for a non-empty input not ending in
a newline the last character of the final value is lost, e.g. `"1 25"`
decodes to the values `1` and `2`. -/
theorem claim_C10 :
    (∀ (s : List Char) (dtype : String),
      rectangularTable (loadstr s none dtype 0) = true →
      FreeFem_str_to_vector (s ++ ['\n']) dtype =
        some (loadstr s none dtype 0).flatten) ∧
    (∀ (s : List Char) (c : Char) (dtype : String),
      FreeFem_str_to_vector (s ++ [c]) dtype =
        FreeFem_str_to_vector (s ++ ['\n']) dtype) ∧
    FreeFem_str_to_vector "1 25".data "float" = some [Cell.float 1, Cell.float 2] := by
  refine ⟨?_, ?_, by decide⟩
  · intro s dtype h
    have hdl : (s ++ ['\n']).dropLast = s := by simp
    unfold FreeFem_str_to_vector
    rw [hdl, if_pos h]
  · intro s c dtype
    have h1 : (s ++ [c]).dropLast = s := by simp
    have h2 : (s ++ ['\n']).dropLast = s := by simp
    unfold FreeFem_str_to_vector
    rw [h1, h2]

/-- Witness for C10 on the newline-terminated text `"1 2\n"`. -/
theorem claim_C10_witness :
    FreeFem_str_to_vector ("1 2".data ++ ['\n']) "float" =
      some (loadstr "1 2".data none "float" 0).flatten :=
  claim_C10.1 "1 2".data "float" (by decide)

/-! ## Lemmas about `optMapM`, `splitP` and line joining -/

theorem optMapM_length {α β : Type _} (f : α → Option β) :
    ∀ (l : List α) (l' : List β), optMapM f l = some l' → l'.length = l.length := by
  intro l
  induction l with
  | nil =>
    intro l' h
    obtain rfl : ([] : List β) = l' := by simpa [optMapM] using h
    rfl
  | cons a as ih =>
    intro l' h
    rw [optMapM] at h
    cases hfa : f a <;> rw [hfa] at h
    · exact absurd h (by simp)
    · cases hrest : optMapM f as <;> rw [hrest] at h
      · exact absurd h (by simp)
      · next b bs =>
        obtain rfl : b :: bs = l' := by simpa using h
        simp [ih _ hrest]

theorem optMapM_of_pointwise {α β : Type _} (f : α → Option β) (g : α → β) :
    ∀ (l : List α), (∀ a ∈ l, f a = some (g a)) → optMapM f l = some (l.map g) := by
  intro l
  induction l with
  | nil => intro _; rfl
  | cons a as ih =>
    intro h
    rw [optMapM, h a (by simp), ih (fun x hx => h x (by simp [hx]))]
    rfl

theorem splitP_ne_nil (p : Char → Bool) : ∀ (s : List Char), splitP p s ≠ [] := by
  intro s
  induction s with
  | nil => simp [splitP]
  | cons c rest ih =>
    rw [splitP]
    by_cases h : p c
    · simp [h]
    · rw [if_neg h]
      cases hsp : splitP p rest with
      | nil => exact absurd hsp ih
      | cons seg segs => simp

theorem splitP_sep_free (p : Char → Bool) :
    ∀ (s : List Char), (∀ c ∈ s, p c = false) → splitP p s = [s] := by
  intro s
  induction s with
  | nil => intro _; rfl
  | cons c rest ih =>
    intro h
    rw [splitP, if_neg (by simp [h c (by simp)]), ih (fun x hx => h x (by simp [hx]))]

theorem splitP_append_sep (p : Char → Bool) (x : Char) (hx : p x = true) :
    ∀ (a b : List Char), splitP p (a ++ x :: b) = splitP p a ++ splitP p b := by
  intro a b
  induction a with
  | nil => simp [splitP, hx]
  | cons c a' ih =>
    show splitP p (c :: (a' ++ x :: b)) = splitP p (c :: a') ++ splitP p b
    rw [splitP, splitP]
    by_cases h : p c
    · simp only [if_pos h, ih, List.cons_append]
    · rw [if_neg h, if_neg h, ih]
      cases hsp : splitP p a' with
      | nil => exact absurd hsp (splitP_ne_nil p a')
      | cons seg segs => simp

theorem pyLines_joinSep :
    ∀ (ls : List (List Char)), ls ≠ [] → (∀ l ∈ ls, ∀ ch ∈ l, ch ≠ '\n') →
      pyLines (joinSep ['\n'] ls) = ls := by
  intro ls
  induction ls with
  | nil => intro h; exact absurd rfl h
  | cons l ls ih =>
    intro _ h
    cases ls with
    | nil =>
      show pyLines l = [l]
      exact splitP_sep_free _ l (fun ch hch => by
        simpa using h l (by simp) ch hch)
    | cons l' rest =>
      have hrec : splitP (fun c => c = '\n') (joinSep ['\n'] (l' :: rest)) = l' :: rest :=
        ih (by simp) (fun x hx ch hch => h x (by simp [hx]) ch hch)
      have hstep : joinSep ['\n'] (l :: l' :: rest) =
          l ++ '\n' :: joinSep ['\n'] (l' :: rest) := by
        show (l ++ ['\n']) ++ joinSep ['\n'] (l' :: rest) = _
        rw [List.append_assoc]
        rfl
      unfold pyLines
      rw [hstep, splitP_append_sep _ '\n' (by simp) l (joinSep ['\n'] (l' :: rest)),
        splitP_sep_free _ l (fun ch hch => by simpa using h l (by simp) ch hch), hrec]
      rfl

/-! ## Decoding lemmas for the matrix pipeline -/

theorem decodeCoefLine_spec {dl : List Char} {trip : Int × Int × Rat}
    (h : decodeCoefLine dl = some trip) :
    ∃ a b c, rowCells dl = [a, b, c] ∧ intOfCell a = some trip.1 ∧
      intOfCell b = some trip.2.1 ∧ floatOfCell c = some trip.2.2 := by
  unfold decodeCoefLine at h
  split at h
  next a b c heq =>
    split at h
    next i j v hi hj hv =>
      obtain rfl : (i, j, v) = trip := by simpa using h
      exact ⟨a, b, c, heq, hi, hj, hv⟩
    next => simp at h
  next => simp at h

theorem unpack3_of_decode :
    ∀ (dls : List (List Char)) (trips : List (Int × Int × Rat)),
      optMapM decodeCoefLine dls = some trips →
      ∃ ctrips : List (Cell × Cell × Cell),
        unpack3 (dls.map rowCells) = some ctrips ∧
        optMapM intOfCell (ctrips.map (fun t => t.1)) =
          some (trips.map (fun t => t.1)) ∧
        optMapM intOfCell (ctrips.map (fun t => t.2.1)) =
          some (trips.map (fun t => t.2.1)) ∧
        optMapM floatOfCell (ctrips.map (fun t => t.2.2)) =
          some (trips.map (fun t => t.2.2)) := by
  intro dls
  induction dls with
  | nil =>
    intro trips h
    obtain rfl : ([] : List (Int × Int × Rat)) = trips := by simpa [optMapM] using h
    exact ⟨[], rfl, rfl, rfl, rfl⟩
  | cons dl dls ih =>
    intro trips h
    rw [optMapM] at h
    cases hdl : decodeCoefLine dl <;> rw [hdl] at h
    · exact absurd h (by simp)
    · cases hrest : optMapM decodeCoefLine dls <;> rw [hrest] at h
      · exact absurd h (by simp)
      · next trip trest =>
        obtain rfl : trip :: trest = trips := by simpa using h
        obtain ⟨ctrips, hc1, hc2, hc3, hc4⟩ := ih trest hrest
        obtain ⟨a, b, c, hr, hi, hj, hv⟩ := decodeCoefLine_spec hdl
        have hc1' : optMapM (fun r =>
            match r with
            | [a, b, c] => some ((a, b, c) : Cell × Cell × Cell)
            | _ => none) (List.map rowCells dls) = some ctrips := hc1
        refine ⟨(a, b, c) :: ctrips, ?_, ?_, ?_, ?_⟩
        · show optMapM _ (List.map rowCells (dl :: dls)) = _
          rw [List.map_cons, optMapM, hr, hc1']
        · show optMapM intOfCell (a :: ctrips.map (fun t => t.1)) = _
          rw [optMapM, hi, hc2]
          rfl
        · show optMapM intOfCell (b :: ctrips.map (fun t => t.2.1)) = _
          rw [optMapM, hj, hc3]
          rfl
        · show optMapM floatOfCell (c :: ctrips.map (fun t => t.2.2)) = _
          rw [optMapM, hv, hc4]
          rfl

theorem decodeTable_of_decode (dls : List (List Char)) (trips : List (Int × Int × Rat))
    (h : optMapM decodeCoefLine dls = some trips) :
    decodeTable (dls.map rowCells) =
      some (trips.map (fun t => t.1), trips.map (fun t => t.2.1),
        trips.map (fun t => t.2.2)) := by
  obtain ⟨ctrips, h1, h2, h3, h4⟩ := unpack3_of_decode dls trips h
  simp only [decodeTable, h1, h2, h3, h4]

theorem matrix_decode_main
    (s fl l0 l1 l2 hl : List Char) (dls : List (List Char))
    (r c sym n : Int) (trips : List (Int × Int × Rat))
    (hparse : parse_FreeFem_output s fl =
      some (joinSep ['\n'] ([l0, l1, l2, hl] ++ dls ++ [[]])))
    (hnl : ∀ l ∈ [l0, l1, l2, hl] ++ dls, ∀ ch ∈ l, ch ≠ '\n')
    (hhdr : parseHeader4 hl = some (r, c, sym, n))
    (hne : dls ≠ [])
    (hdec : optMapM decodeCoefLine dls = some trips) :
    FreeFem_str_to_matrix s none (some fl) =
      some ⟨r, c, trips.map (fun t => t.1 - 1), trips.map (fun t => t.2.1 - 1),
        trips.map (fun t => t.2.2)⟩ := by
  have hLS : pyLines (joinSep ['\n'] ([l0, l1, l2, hl] ++ dls ++ [[]])) =
      [l0, l1, l2, hl] ++ dls ++ [[]] := by
    apply pyLines_joinSep _ (by simp)
    intro l hli ch hch
    rcases List.mem_append.mp hli with h1 | h2
    · exact hnl l h1 ch hch
    · obtain rfl : l = [] := by simpa using h2
      simp at hch
  have hget3 : ([l0, l1, l2, hl] ++ dls ++ [[]])[3]? = some hl := by
    show (l0 :: l1 :: l2 :: hl :: (dls ++ [[]]))[3]? = some hl
    simp
  have hdrop : (([l0, l1, l2, hl] ++ dls ++ [[]]).drop 4).dropLast = dls := by
    show ((l0 :: l1 :: l2 :: hl :: (dls ++ [[]])).drop 4).dropLast = dls
    simp
  have hload : loadstr (joinSep ['\n'] dls) none "float" 0 = dls.map rowCells := by
    unfold loadstr
    rw [pyLines_joinSep dls hne (fun l hli ch hch => hnl l (by simp [hli]) ch hch)]
    rfl
  have htab := decodeTable_of_decode dls trips hdec
  simp only [FreeFem_str_to_matrix, hparse, Option.map_some', hLS, hget3, hhdr,
    hdrop, hload, htab]
  simp [List.map_map, Function.comp]

/-! ## Claims C4 and C9: the matrix decoder -/

/-- **C4, counterexample.**  On a framed matrix section laid out as the
claim describes — flag line, then immediately the header `2 2 0 3`, then
exactly 3 data lines — the decoder fails (Python: `ValueError` while
parsing the header, because it reads the header from the *fourth* line of
the framed text, here the data line `2 2 4.0`), instead of returning the
claimed shape-`(2, 2)`, 3-coefficient sparse data. -/
theorem claim_C4_counterexample :
    FreeFem_str_to_matrix "# MATRIX A\n2 2 0 3\n1 1 4.0\n1 2 -1.0\n2 2 4.0\n".data
      none (some "# MATRIX A".data) = none := by
  decide

/-- **C4, amended.**  For every well-formed matrix section whose framed
text is three preamble lines (the solver's comment lines), then a header
line of four integers `(r, c, s, n)` with `n ≥ 1`, then exactly `n` data
lines `row col value` with 1-based in-range indices, then the empty line
left by the trailing newline, `FreeFem_str_to_matrix` returns sparse data
of declared shape `(r, c)` with exactly `n` stored coefficients (duplicates
kept individually), every decoded row index in `[0, r)` and column index in
`[0, c)`, obtained by subtracting 1 from the wire indices and converting
the values to float. -/
theorem claim_C4_amended
    (s fl l0 l1 l2 hl : List Char) (dls : List (List Char))
    (r c sym n : Int) (trips : List (Int × Int × Rat))
    (hparse : parse_FreeFem_output s fl =
      some (joinSep ['\n'] ([l0, l1, l2, hl] ++ dls ++ [[]])))
    (hnl : ∀ l ∈ [l0, l1, l2, hl] ++ dls, ∀ ch ∈ l, ch ≠ '\n')
    (hhdr : parseHeader4 hl = some (r, c, sym, n))
    (hcount : dls.length = n.toNat)
    (hne : dls ≠ [])
    (hdec : optMapM decodeCoefLine dls = some trips)
    (hbound : ∀ t ∈ trips, 1 ≤ t.1 ∧ t.1 ≤ r ∧ 1 ≤ t.2.1 ∧ t.2.1 ≤ c) :
    FreeFem_str_to_matrix s none (some fl) =
      some ⟨r, c, trips.map (fun t => t.1 - 1), trips.map (fun t => t.2.1 - 1),
        trips.map (fun t => t.2.2)⟩ ∧
    (trips.map (fun t => t.1 - 1)).length = n.toNat ∧
    (trips.map (fun t => t.2.1 - 1)).length = n.toNat ∧
    (trips.map (fun t => t.2.2)).length = n.toNat ∧
    (∀ i ∈ trips.map (fun t => t.1 - 1), 0 ≤ i ∧ i < r) ∧
    (∀ j ∈ trips.map (fun t => t.2.1 - 1), 0 ≤ j ∧ j < c) := by
  have hlen : trips.length = dls.length := optMapM_length _ dls trips hdec
  refine ⟨matrix_decode_main s fl l0 l1 l2 hl dls r c sym n trips hparse hnl hhdr hne hdec,
    by simp [hlen, hcount], by simp [hlen, hcount], by simp [hlen, hcount], ?_, ?_⟩
  · intro i hi
    obtain ⟨t, ht, rfl⟩ := List.mem_map.mp hi
    have := hbound t ht
    omega
  · intro j hj
    obtain ⟨t, ht, rfl⟩ := List.mem_map.mp hj
    have := hbound t ht
    omega

/-- Witness for C4 (amended), on the section framed by `# MATRIX A` with
preamble lines `P0 P1 P2`, header `2 2 0 3` and the three data lines of the
spec's concrete scenario. -/
theorem claim_C4_amended_witness :
    FreeFem_str_to_matrix
        "# MATRIX A\nP0\nP1\nP2\n2 2 0 3\n1 1 4.0\n1 2 -1.0\n2 2 4.0\n".data
        none (some "# MATRIX A".data) =
      some ⟨2, 2, [0, 0, 1], [0, 1, 1], [4, -1, 4]⟩ :=
  ((claim_C4_amended
      "# MATRIX A\nP0\nP1\nP2\n2 2 0 3\n1 1 4.0\n1 2 -1.0\n2 2 4.0\n".data
      "# MATRIX A".data "P0".data "P1".data "P2".data "2 2 0 3".data
      ["1 1 4.0".data, "1 2 -1.0".data, "2 2 4.0".data]
      2 2 0 3 [(1, 1, 4), (1, 2, -1), (2, 2, 4)]
      (by decide) (by decide) (by decide) (by decide) (by decide) (by decide)
      (by decide)).1).trans (by decide)

/-- **C9.**  `FreeFem_str_to_matrix` never compares the declared
coefficient count against the data: for every framed section whose header
line (the fourth framed line) parses as four integers `(r, c, sym, n)` and
whose data lines — the lines strictly between the header line and the final
line — decode as `row col value` triples, the result stores exactly one
coefficient per data line actually present, with `n` left completely
unconstrained. -/
theorem claim_C9
    (s fl l0 l1 l2 hl : List Char) (dls : List (List Char))
    (r c sym n : Int) (trips : List (Int × Int × Rat))
    (hparse : parse_FreeFem_output s fl =
      some (joinSep ['\n'] ([l0, l1, l2, hl] ++ dls ++ [[]])))
    (hnl : ∀ l ∈ [l0, l1, l2, hl] ++ dls, ∀ ch ∈ l, ch ≠ '\n')
    (hhdr : parseHeader4 hl = some (r, c, sym, n))
    (hne : dls ≠ [])
    (hdec : optMapM decodeCoefLine dls = some trips) :
    ∃ M : COOMatrix, FreeFem_str_to_matrix s none (some fl) = some M ∧
      M.I.length = dls.length ∧ M.J.length = dls.length ∧
      M.coef.length = dls.length := by
  have hlen : trips.length = dls.length := optMapM_length _ dls trips hdec
  exact ⟨_, matrix_decode_main s fl l0 l1 l2 hl dls r c sym n trips hparse hnl hhdr hne hdec,
    by simp [hlen], by simp [hlen], by simp [hlen]⟩

/-- Witness for C9: a section whose header declares `nb_coef = 7` but which
contains only 2 data lines; the decoded matrix stores exactly 2
coefficients. -/
theorem claim_C9_witness :
    ∃ M : COOMatrix,
      FreeFem_str_to_matrix "# MATRIX B\nP0\nP1\nP2\n2 2 0 7\n1 1 4.0\n1 2 -1.0\n".data
          none (some "# MATRIX B".data) = some M ∧
      M.I.length = 2 ∧ M.J.length = 2 ∧ M.coef.length = 2 := by
  have h := claim_C9 "# MATRIX B\nP0\nP1\nP2\n2 2 0 7\n1 1 4.0\n1 2 -1.0\n".data
    "# MATRIX B".data "P0".data "P1".data "P2".data "2 2 0 7".data
    ["1 1 4.0".data, "1 2 -1.0".data] 2 2 0 7 [(1, 1, 4), (1, 2, -1)]
    (by decide) (by decide) (by decide) (by decide) (by decide)
  simpa using h

/-! ## Decimal rendering and its round trip -/

theorem digitChar_isDigit : ∀ d, d < 10 → (digitChar d).isDigit = true := by decide

theorem digitVal_digitChar : ∀ d, d < 10 → digitVal (digitChar d) = d := by decide

theorem parseDigits_append_digit (l : List Char) (c : Char) :
    parseDigits (l ++ [c]) = 10 * parseDigits l + digitVal c := by
  unfold parseDigits
  rw [List.foldl_append]
  rfl

theorem natCharsF_spec :
    ∀ (fuel n : Nat), n ≤ fuel →
      natCharsF fuel n ≠ [] ∧ (∀ c ∈ natCharsF fuel n, c.isDigit = true) ∧
      parseDigits (natCharsF fuel n) = n := by
  intro fuel
  induction fuel with
  | zero =>
    intro n hn
    obtain rfl : n = 0 := by omega
    refine ⟨by simp [natCharsF], ?_, ?_⟩
    · intro c hc
      obtain rfl : c = digitChar 0 := by simpa [natCharsF] using hc
      exact digitChar_isDigit 0 (by omega)
    · show parseDigits [digitChar (0 % 10)] = 0
      simp [parseDigits, digitVal_digitChar 0 (by omega)]
  | succ fuel ih =>
    intro n hn
    by_cases h : n < 10
    · refine ⟨by simp [natCharsF, h], ?_, ?_⟩
      · intro c hc
        obtain rfl : c = digitChar n := by simpa [natCharsF, h] using hc
        exact digitChar_isDigit n h
      · show parseDigits (natCharsF (fuel + 1) n) = n
        rw [natCharsF, if_pos h]
        simp [parseDigits, digitVal_digitChar n h]
    · obtain ⟨ihne, ihdig, ihparse⟩ := ih (n / 10) (by omega)
      have hmod : n % 10 < 10 := Nat.mod_lt n (by omega)
      refine ⟨?_, ?_, ?_⟩
      · rw [natCharsF, if_neg h]
        simp
      · intro c hc
        rw [natCharsF, if_neg h] at hc
        rcases List.mem_append.mp hc with h1 | h2
        · exact ihdig c h1
        · obtain rfl : c = digitChar (n % 10) := by simpa using h2
          exact digitChar_isDigit _ hmod
      · rw [natCharsF, if_neg h, parseDigits_append_digit, ihparse,
          digitVal_digitChar _ hmod]
        omega

theorem natChars_spec (n : Nat) :
    natChars n ≠ [] ∧ (∀ c ∈ natChars n, c.isDigit = true) ∧
      parseDigits (natChars n) = n :=
  natCharsF_spec n n (Nat.le_refl n)

theorem pyNatDigits?_natChars (n : Nat) : pyNatDigits? (natChars n) = some n := by
  obtain ⟨hne, hdig, hparse⟩ := natChars_spec n
  unfold pyNatDigits?
  rw [if_pos ⟨hne, List.all_eq_true.mpr hdig⟩, hparse]

theorem reprInt_chars {k : Int} {ch : Char} (h : ch ∈ reprInt k) :
    ch = '-' ∨ ch.isDigit = true := by
  unfold reprInt at h
  by_cases hk : k < 0
  · rw [if_pos hk] at h
    rcases List.mem_cons.mp h with rfl | h2
    · exact Or.inl rfl
    · exact Or.inr ((natChars_spec k.natAbs).2.1 ch h2)
  · rw [if_neg hk] at h
    exact Or.inr ((natChars_spec k.toNat).2.1 ch h)

theorem isDigit_not_special {c : Char} (h : c.isDigit = true) :
    isPySpace c = false ∧ c ≠ '\n' ∧ c ≠ ',' ∧ c ≠ '+' ∧ c ≠ '-' := by
  refine ⟨?_, ?_, ?_, ?_, ?_⟩
  · cases hc : isPySpace c
    · rfl
    · exfalso
      unfold isPySpace at hc
      simp only [Bool.or_eq_true, decide_eq_true_eq] at hc
      rcases hc with ((((h1 | h1) | h1) | h1) | h1) | h1 <;> subst h1 <;>
        exact absurd h (by decide)
  · intro h1; subst h1; exact absurd h (by decide)
  · intro h1; subst h1; exact absurd h (by decide)
  · intro h1; subst h1; exact absurd h (by decide)
  · intro h1; subst h1; exact absurd h (by decide)

theorem reprInt_clean {k : Int} {ch : Char} (h : ch ∈ reprInt k) :
    isPySpace ch = false ∧ ch ≠ '\n' ∧ ch ≠ ',' := by
  rcases reprInt_chars h with rfl | hd
  · exact ⟨by decide, by decide, by decide⟩
  · exact ⟨(isDigit_not_special hd).1, (isDigit_not_special hd).2.1,
      (isDigit_not_special hd).2.2.1⟩

theorem reprInt_ne_nil (k : Int) : reprInt k ≠ [] := by
  unfold reprInt
  by_cases hk : k < 0
  · simp [if_pos hk]
  · simpa [if_neg hk] using (natChars_spec k.toNat).1

theorem dropWhile_of_all_false {p : Char → Bool} :
    ∀ (s : List Char), (∀ c ∈ s, p c = false) → s.dropWhile p = s := by
  intro s h
  cases s with
  | nil => rfl
  | cons c rest => rw [List.dropWhile_cons, if_neg (by simp [h c (by simp)])]

theorem pyStrip_of_clean (s : List Char) (h : ∀ c ∈ s, isPySpace c = false) :
    pyStrip s = s := by
  unfold pyStrip
  rw [dropWhile_of_all_false s h,
    dropWhile_of_all_false s.reverse (fun c hc => h c (List.mem_reverse.mp hc)),
    List.reverse_reverse]

theorem pyInt?_reprInt (k : Int) : pyInt? (reprInt k) = some k := by
  have hstrip : pyStrip (reprInt k) = reprInt k :=
    pyStrip_of_clean _ (fun c hc => (reprInt_clean hc).1)
  by_cases hk : k < 0
  · have hr : reprInt k = '-' :: natChars k.natAbs := by rw [reprInt, if_pos hk]
    have hstrip2 : pyStrip ('-' :: natChars k.natAbs) = '-' :: natChars k.natAbs := by
      rw [← hr]; exact hstrip
    simp only [pyInt?, hr, hstrip2, pyNatDigits?_natChars]
    rw [if_neg (by decide : ¬(('-' : Char) = '+'))]
    simp only [if_true]
    show Option.map (fun n => -n) (some (Int.ofNat k.natAbs)) = some k
    simp only [Option.map_some', Option.some.injEq]
    rw [Int.ofNat_eq_natCast]
    omega
  · have hr : reprInt k = natChars k.toNat := by rw [reprInt, if_neg hk]
    obtain ⟨hne, hdig, _⟩ := natChars_spec k.toNat
    cases hnc : natChars k.toNat with
    | nil => exact absurd hnc hne
    | cons c rest =>
      have hcd : c.isDigit = true := hdig c (by rw [hnc]; simp)
      have hplus : c ≠ '+' := (isDigit_not_special hcd).2.2.2.1
      have hminus : c ≠ '-' := (isDigit_not_special hcd).2.2.2.2
      have hpn : pyNatDigits? (c :: rest) = some k.toNat := by
        rw [← hnc]; exact pyNatDigits?_natChars k.toNat
      have hstrip2 : pyStrip (c :: rest) = c :: rest := by
        rw [← hnc, ← hr]; exact hstrip
      simp only [pyInt?, hr, hnc, hstrip2, hplus, hminus, if_neg, if_false,
        reduceIte, hpn, Option.map_some', Option.some.injEq]
      rw [Int.ofNat_eq_natCast]
      omega

/-! ## Whitespace tokenisation of rendered lines -/

theorem wsSplit_clean (s : List Char) (hne : s ≠ [])
    (h : ∀ c ∈ s, isPySpace c = false) : wsSplit s = [s] := by
  unfold wsSplit
  rw [splitP_sep_free _ s h]
  simp [hne]

theorem wsSplit_cons_space (b : List Char) : wsSplit (' ' :: b) = wsSplit b := by
  unfold wsSplit
  rw [splitP]
  rw [if_pos (by decide : isPySpace ' ' = true)]
  rfl

theorem wsSplit_token_sep (a b : List Char) (hne : a ≠ [])
    (h : ∀ c ∈ a, isPySpace c = false) :
    wsSplit (a ++ ' ' :: b) = a :: wsSplit b := by
  unfold wsSplit
  rw [splitP_append_sep isPySpace ' ' (by decide) a b, List.filter_append,
    ← wsSplit, ← wsSplit, wsSplit_clean a hne h]
  rfl

theorem joinSep_three (sep x y z : List Char) :
    joinSep sep [x, y, z] = x ++ sep ++ (y ++ sep ++ z) := rfl

theorem pyReplaceComma_of_free (l : List Char) (h : ∀ ch ∈ l, ch ≠ ',') :
    pyReplaceComma l = l := by
  unfold pyReplaceComma
  induction l with
  | nil => rfl
  | cons c rest ih =>
    rw [List.map_cons, if_neg (h c (by simp)), ih (fun x hx => h x (by simp [hx]))]

theorem bracketLine_three (a b c : Int) :
    bracketLine [a, b, c] =
      reprInt a ++ ' ' :: ' ' :: (reprInt b ++ ' ' :: ' ' :: reprInt c) := by
  unfold bracketLine pySlice1m1 pyStrList
  show pyReplaceComma
      ((joinSep ", ".data ([a, b, c].map reprInt) ++ [']']).dropLast) = _
  have hd : (joinSep ", ".data ([a, b, c].map reprInt) ++ [']']).dropLast =
      joinSep ", ".data ([a, b, c].map reprInt) := by simp
  have happ : ∀ x y : List Char,
      pyReplaceComma (x ++ y) = pyReplaceComma x ++ pyReplaceComma y :=
    fun x y => List.map_append _ x y
  have hsep : pyReplaceComma ", ".data = [' ', ' '] := by decide
  rw [hd, List.map_cons, List.map_cons, List.map_cons, List.map_nil, joinSep_three,
    happ, happ, happ, happ,
    pyReplaceComma_of_free (reprInt a) (fun ch hc => (reprInt_clean hc).2.2),
    pyReplaceComma_of_free (reprInt b) (fun ch hc => (reprInt_clean hc).2.2),
    pyReplaceComma_of_free (reprInt c) (fun ch hc => (reprInt_clean hc).2.2), hsep]
  simp [List.append_assoc]

/-! ## Claim C8: the serializer's field separators -/

/-- **C8, counterexample.**  Already the header line written for the empty
mesh is `"0  0  0"`: the `str(list)[1:-1].replace(',', ' ')` idiom turns
each `", "` into *two* spaces, refuting the claim that the separator is
exactly one space on every line. -/
theorem claim_C8_counterexample :
    savemesh_text reprInt (⟨[], [], [], [], [], []⟩ : Mesh Int) = "0  0  0\n".data ∧
    containsSeq "  ".data
      (savemesh_text reprInt (⟨[], [], [], [], [], []⟩ : Mesh Int)) = true := by
  decide

/-- **C8, amended.**  In every file written by `savemesh`, node lines
separate their fields with a single space and a triangle's region label is
preceded by a single space, while consecutive integer fields of the header,
of a triangle's node triple, and of a boundary-edge line are separated by
exactly two spaces (the comma of the list repr becomes a space, followed by
the original space); the file is exactly the header line, node lines,
triangle lines, then boundary-edge lines, each terminated by a newline,
with no trailing metadata. -/
theorem claim_C8_amended {α : Type} [Inhabited α] (render : α → List Char) (m : Mesh α) :
    savemesh_lines render m =
      (reprInt (m.x.length : Int) ++ ' ' :: ' ' ::
        (reprInt (m.triangles.length : Int) ++ ' ' :: ' ' ::
          reprInt (m.boundary_edges.length : Int))) ::
      ((List.range m.x.length).map (fun i =>
          render (m.x.getD i default) ++ ' ' :: render (m.y.getD i default) ++
            ' ' :: reprInt (m.node_labels.getD i 0)) ++
        (List.range m.triangles.length).map (fun i =>
          (reprInt ((m.triangles.getD i (0, 0, 0)).1 + 1) ++ ' ' :: ' ' ::
            (reprInt ((m.triangles.getD i (0, 0, 0)).2.1 + 1) ++ ' ' :: ' ' ::
              reprInt ((m.triangles.getD i (0, 0, 0)).2.2 + 1))) ++
            ' ' :: reprInt (m.triangle_labels.getD i 0)) ++
        (get_boundary_edges m).map (fun e =>
          reprInt (e.1 + 1) ++ ' ' :: ' ' ::
            (reprInt (e.2.1 + 1) ++ ' ' :: ' ' :: reprInt e.2.2))) ∧
    savemesh_text render m =
      ((savemesh_lines render m).map (fun l => l ++ ['\n'])).flatten := by
  refine ⟨?_, rfl⟩
  unfold savemesh_lines nodeLineBody triLineBody edgeLineBody
  simp only [bracketLine_three]

/-! ## Helpers for the serializer round trip -/

theorem map_getD_range {β : Type _} (l : List β) (d : β) :
    (List.range l.length).map (fun i => l.getD i d) = l := by
  induction l with
  | nil => rfl
  | cons a t ih =>
    rw [List.length_cons, List.range_succ_eq_map, List.map_cons, List.map_map]
    have h2 : (List.range t.length).map ((fun i => (a :: t).getD i d) ∘ Nat.succ) = t := by
      refine (List.map_congr_left (fun i _ => ?_)).trans ih
      simp [List.getD]
    rw [h2]
    rfl

theorem pyLines_flatten (ls : List (List Char))
    (h : ∀ l ∈ ls, ∀ ch ∈ l, ch ≠ '\n') :
    pyLines ((ls.map (fun l => l ++ ['\n'])).flatten) = ls ++ [[]] := by
  induction ls with
  | nil => rfl
  | cons l rest ih =>
    rw [List.map_cons, List.flatten_cons, List.append_assoc]
    show splitP _ (l ++ '\n' :: (rest.map (fun l => l ++ ['\n'])).flatten) = _
    rw [splitP_append_sep _ '\n' (by simp) l _,
      splitP_sep_free _ l (fun ch hch => by simpa using h l (by simp) ch hch)]
    have hrec := ih (fun x hx ch hch => h x (by simp [hx]) ch hch)
    unfold pyLines at hrec
    rw [hrec]
    rfl

theorem optMapM_map {α β γ : Type _} (f : β → Option γ) (g : α → β) :
    ∀ l : List α, optMapM f (l.map g) = optMapM (fun a => f (g a)) l := by
  intro l
  induction l with
  | nil => rfl
  | cons a as ih => rw [List.map_cons, optMapM, optMapM, ih]

theorem wsSplit_sep2 (a b : List Char) (hne : a ≠ [])
    (h : ∀ c ∈ a, isPySpace c = false) :
    wsSplit (a ++ ' ' :: ' ' :: b) = a :: wsSplit b := by
  rw [wsSplit_token_sep a (' ' :: b) hne h, wsSplit_cons_space]

theorem reprInt_no_space {k : Int} : ∀ ch ∈ reprInt k, isPySpace ch = false :=
  fun _ hch => (reprInt_clean hch).1

theorem wsSplit_bracket3 (a b c : Int) :
    wsSplit (bracketLine [a, b, c]) = [reprInt a, reprInt b, reprInt c] := by
  rw [bracketLine_three,
    wsSplit_sep2 (reprInt a) _ (reprInt_ne_nil a) reprInt_no_space,
    wsSplit_sep2 (reprInt b) _ (reprInt_ne_nil b) reprInt_no_space,
    wsSplit_clean (reprInt c) (reprInt_ne_nil c) reprInt_no_space]

theorem wsSplit_bracket3_label (a b c lab : Int) :
    wsSplit (bracketLine [a, b, c] ++ ' ' :: reprInt lab) =
      [reprInt a, reprInt b, reprInt c, reprInt lab] := by
  rw [bracketLine_three]
  have hassoc :
      (reprInt a ++ ' ' :: ' ' :: (reprInt b ++ ' ' :: ' ' :: reprInt c)) ++
          ' ' :: reprInt lab =
        reprInt a ++ ' ' :: ' ' ::
          (reprInt b ++ ' ' :: ' ' :: (reprInt c ++ ' ' :: reprInt lab)) := by
    simp [List.append_assoc]
  rw [hassoc,
    wsSplit_sep2 (reprInt a) _ (reprInt_ne_nil a) reprInt_no_space,
    wsSplit_sep2 (reprInt b) _ (reprInt_ne_nil b) reprInt_no_space,
    wsSplit_token_sep (reprInt c) _ (reprInt_ne_nil c) reprInt_no_space,
    wsSplit_clean (reprInt lab) (reprInt_ne_nil lab) reprInt_no_space]

theorem parseHeader3_bracket (a b c : Int) :
    parseHeader3 (bracketLine [a, b, c]) = some (a, b, c) := by
  simp only [parseHeader3, wsSplit_bracket3, optMapM, pyInt?_reprInt]

theorem parseTriLine_bracket (n1 n2 n3 lab : Int) :
    parseTriLine (bracketLine [n1 + 1, n2 + 1, n3 + 1] ++ ' ' :: reprInt lab) =
      some ((n1, n2, n3), lab) := by
  simp only [parseTriLine, wsSplit_bracket3_label, pyInt?_reprInt]
  simp

theorem parseEdgeLine_bracket (n1 n2 lab : Int) :
    parseEdgeLine (bracketLine [n1 + 1, n2 + 1, lab]) = some (n1, n2, lab) := by
  simp only [parseEdgeLine, wsSplit_bracket3, pyInt?_reprInt]
  simp

theorem getD_mem {β : Type _} (l : List β) (i : Nat) (d : β) (h : i < l.length) :
    l.getD i d ∈ l := by
  rw [List.getD_eq_getElem l d h]
  exact List.getElem_mem h

theorem take_drop_three {γ : Type _} (A B C D : List γ) :
    ((A ++ B ++ C) ++ D).take A.length = A ∧
    (((A ++ B ++ C) ++ D).drop A.length).take B.length = B ∧
    ((((A ++ B ++ C) ++ D).drop A.length).drop B.length).take C.length = C := by
  have h : (A ++ B ++ C) ++ D = A ++ (B ++ (C ++ D)) := by simp [List.append_assoc]
  refine ⟨?_, ?_, ?_⟩
  · rw [h, List.take_left]
  · rw [h, List.drop_left, List.take_left]
  · rw [h, List.drop_left, List.drop_left, List.take_left]

theorem bracketLine_no_newline (a b c : Int) :
    ∀ ch ∈ bracketLine [a, b, c], ch ≠ '\n' := by
  rw [bracketLine_three]
  intro ch hch
  have hsh : ch = ' ' ∨ ch ∈ reprInt a ∨ ch ∈ reprInt b ∨ ch ∈ reprInt c := by
    simp only [List.mem_append, List.mem_cons] at hch
    tauto
  rcases hsh with rfl | h | h | h
  · decide
  · exact (reprInt_clean h).2.1
  · exact (reprInt_clean h).2.1
  · exact (reprInt_clean h).2.1

theorem savemesh_lines_no_newline {α : Type} [Inhabited α]
    (render : α → List Char) (m : Mesh α)
    (hylen : m.y.length = m.x.length)
    (hclean : ∀ a ∈ m.x ++ m.y, ∀ ch ∈ render a, ch ≠ '\n') :
    ∀ l ∈ savemesh_lines render m, ∀ ch ∈ l, ch ≠ '\n' := by
  intro l hl
  rcases List.mem_cons.mp hl with rfl | hl2
  · exact bracketLine_no_newline _ _ _
  · rcases List.mem_append.mp hl2 with hl3 | hedge
    · rcases List.mem_append.mp hl3 with hnode | htri
      · obtain ⟨i, hi, rfl⟩ := List.mem_map.mp hnode
        have hix : i < m.x.length := List.mem_range.mp hi
        intro ch hch
        have hsh : ch = ' ' ∨ ch ∈ render (m.x.getD i default) ∨
            ch ∈ render (m.y.getD i default) ∨
            ch ∈ reprInt (m.node_labels.getD i 0) := by
          unfold nodeLineBody at hch
          simp only [List.mem_append, List.mem_cons] at hch
          tauto
        rcases hsh with rfl | h | h | h
        · decide
        · exact hclean _ (List.mem_append.mpr (Or.inl (getD_mem _ _ _ hix))) ch h
        · exact hclean _ (List.mem_append.mpr
            (Or.inr (getD_mem _ _ _ (by omega)))) ch h
        · exact (reprInt_clean h).2.1
      · obtain ⟨i, _, rfl⟩ := List.mem_map.mp htri
        intro ch hch
        have hsh : ch ∈ bracketLine [(m.triangles.getD i (0, 0, 0)).1 + 1,
            (m.triangles.getD i (0, 0, 0)).2.1 + 1,
            (m.triangles.getD i (0, 0, 0)).2.2 + 1] ∨ ch = ' ' ∨
            ch ∈ reprInt (m.triangle_labels.getD i 0) := by
          unfold triLineBody at hch
          simp only [List.mem_append, List.mem_cons] at hch
          tauto
        rcases hsh with h | rfl | h
        · exact bracketLine_no_newline _ _ _ ch h
        · decide
        · exact (reprInt_clean h).2.1
    · obtain ⟨e, _, rfl⟩ := List.mem_map.mp hedge
      exact bracketLine_no_newline _ _ _

/-! ## Claim C5: the serializer round trip -/

/-- **C5.**  For every mesh, serializing it with `savemesh` and re-reading
the produced text with an equivalent reader of the solver's native file
layout (header `nv nt ne`, then `nv` node lines, `nt` triangle lines, `ne`
boundary-edge lines, 1-based indices on disk) reproduces identical node
coordinates and labels, identical triangle connectivity and labels as
ordered sequences, and the boundary edges as the identical ordered list of
`(node pair, label)` triples — in particular the same unordered collection.
Coordinates are of an abstract type with a rendering/parsing pair; the
hypotheses on it state exactly the Python `float(str(x)) == x` guarantee
and that renderings are non-empty and free of whitespace and newlines. -/
theorem claim_C5 {α : Type} [Inhabited α]
    (render : α → List Char) (parseCoord : List Char → Option α) (m : Mesh α)
    (hylen : m.y.length = m.x.length)
    (hnlen : m.node_labels.length = m.x.length)
    (htlen : m.triangle_labels.length = m.triangles.length)
    (hrender : ∀ a ∈ m.x ++ m.y, parseCoord (render a) = some a)
    (hclean : ∀ a ∈ m.x ++ m.y,
      render a ≠ [] ∧ ∀ ch ∈ render a, isPySpace ch = false ∧ ch ≠ '\n') :
    readNativeMesh parseCoord (savemesh_text render m) =
      some ⟨m.x, m.y, m.node_labels, m.triangles, m.triangle_labels,
        get_boundary_edges m⟩ := by
  have hnl : ∀ l ∈ savemesh_lines render m, ∀ ch ∈ l, ch ≠ '\n' :=
    savemesh_lines_no_newline render m hylen
      (fun a ha ch hch => ((hclean a ha).2 ch hch).2)
  have hsplit2 : pyLines (savemesh_text render m) =
      bracketLine [(m.x.length : Int), (m.triangles.length : Int),
          (m.boundary_edges.length : Int)] ::
        (((List.range m.x.length).map (nodeLineBody render m) ++
          (List.range m.triangles.length).map (triLineBody m) ++
          (get_boundary_edges m).map edgeLineBody) ++ [[]]) := by
    unfold savemesh_text
    rw [pyLines_flatten _ hnl]
    rfl
  have hnode : ∀ i, i < m.x.length →
      parseNodeLine parseCoord (nodeLineBody render m i) =
        some (m.x.getD i default, m.y.getD i default, m.node_labels.getD i 0) := by
    intro i hi
    have hxm : m.x.getD i default ∈ m.x ++ m.y :=
      List.mem_append.mpr (Or.inl (getD_mem _ _ _ hi))
    have hym : m.y.getD i default ∈ m.x ++ m.y :=
      List.mem_append.mpr (Or.inr (getD_mem _ _ _ (by omega)))
    obtain ⟨hxne, hxcl⟩ := hclean _ hxm
    obtain ⟨hyne, hycl⟩ := hclean _ hym
    have hws : wsSplit (nodeLineBody render m i) =
        [render (m.x.getD i default), render (m.y.getD i default),
          reprInt (m.node_labels.getD i 0)] := by
      have hassoc : nodeLineBody render m i =
          render (m.x.getD i default) ++ ' ' ::
            (render (m.y.getD i default) ++ ' ' :: reprInt (m.node_labels.getD i 0)) := by
        unfold nodeLineBody
        simp [List.append_assoc]
      rw [hassoc,
        wsSplit_token_sep _ _ hxne (fun c hc => (hxcl c hc).1),
        wsSplit_token_sep _ _ hyne (fun c hc => (hycl c hc).1),
        wsSplit_clean _ (reprInt_ne_nil _) reprInt_no_space]
    simp only [parseNodeLine, hws, hrender _ hxm, hrender _ hym, pyInt?_reprInt]
  have htri : ∀ i : Nat, parseTriLine (triLineBody m i) =
      some (m.triangles.getD i (0, 0, 0), m.triangle_labels.getD i 0) := by
    intro i
    unfold triLineBody
    exact parseTriLine_bracket _ _ _ _
  have hedge : ∀ e : Int × Int × Int, parseEdgeLine (edgeLineBody e) = some e := by
    intro e
    unfold edgeLineBody
    exact parseEdgeLine_bracket e.1 e.2.1 e.2.2
  have hN : optMapM (parseNodeLine parseCoord)
      ((List.range m.x.length).map (nodeLineBody render m)) =
      some ((List.range m.x.length).map (fun i =>
        (m.x.getD i default, m.y.getD i default, m.node_labels.getD i 0))) := by
    rw [optMapM_map]
    exact optMapM_of_pointwise _ _ _ (fun i hi => hnode i (List.mem_range.mp hi))
  have hT : optMapM parseTriLine
      ((List.range m.triangles.length).map (triLineBody m)) =
      some ((List.range m.triangles.length).map (fun i =>
        (m.triangles.getD i (0, 0, 0), m.triangle_labels.getD i 0))) := by
    rw [optMapM_map]
    exact optMapM_of_pointwise _ _ _ (fun i _ => htri i)
  have hE : optMapM parseEdgeLine ((get_boundary_edges m).map edgeLineBody) =
      some (get_boundary_edges m) := by
    rw [optMapM_map]
    have := optMapM_of_pointwise (fun e => parseEdgeLine (edgeLineBody e)) id
      (get_boundary_edges m) (fun e _ => hedge e)
    simpa using this
  obtain ⟨htk1, htk2, htk3⟩ := take_drop_three
    ((List.range m.x.length).map (nodeLineBody render m))
    ((List.range m.triangles.length).map (triLineBody m))
    ((get_boundary_edges m).map edgeLineBody) [[]]
  have hblen : (get_boundary_edges m).length = m.boundary_edges.length := by
    simp [get_boundary_edges]
  simp only [List.length_map, List.length_range, hblen] at htk1 htk2 htk3
  have hx : ((List.range m.x.length).map (fun i =>
      (m.x.getD i default, m.y.getD i default, m.node_labels.getD i 0))).map
        (fun nd => nd.1) = m.x := by
    rw [List.map_map]
    exact map_getD_range m.x default
  have hy : ((List.range m.x.length).map (fun i =>
      (m.x.getD i default, m.y.getD i default, m.node_labels.getD i 0))).map
        (fun nd => nd.2.1) = m.y := by
    rw [List.map_map]
    have h := map_getD_range m.y default
    rw [hylen] at h
    exact h
  have hlab : ((List.range m.x.length).map (fun i =>
      (m.x.getD i default, m.y.getD i default, m.node_labels.getD i 0))).map
        (fun nd => nd.2.2) = m.node_labels := by
    rw [List.map_map]
    have h := map_getD_range m.node_labels 0
    rw [hnlen] at h
    exact h
  have htris : ((List.range m.triangles.length).map (fun i =>
      (m.triangles.getD i (0, 0, 0), m.triangle_labels.getD i 0))).map
        (fun t => t.1) = m.triangles := by
    rw [List.map_map]
    exact map_getD_range m.triangles (0, 0, 0)
  have htlabs : ((List.range m.triangles.length).map (fun i =>
      (m.triangles.getD i (0, 0, 0), m.triangle_labels.getD i 0))).map
        (fun t => t.2) = m.triangle_labels := by
    rw [List.map_map]
    have h := map_getD_range m.triangle_labels 0
    rw [htlen] at h
    exact h
  simp only [readNativeMesh, hsplit2, parseHeader3_bracket, Int.toNat_natCast,
    htk1, htk2, htk3, hN, hT, hE, hx, hy, hlab, htris, htlabs,
    List.length_map, List.length_range, hblen, and_self, if_true, reduceIte]

/-- Witness for C5: a concrete three-node, one-triangle mesh with one
boundary edge, integer-rendered coordinates. -/
theorem claim_C5_witness :
    readNativeMesh pyInt? (savemesh_text reprInt
        (⟨[0, 1, 2], [0, 0, 1], [1, 2, 3], [(0, 1, 2)], [7], [((0, 1), -3)]⟩ : Mesh Int)) =
      some ⟨[0, 1, 2], [0, 0, 1], [1, 2, 3], [(0, 1, 2)], [7],
        get_boundary_edges
          (⟨[0, 1, 2], [0, 0, 1], [1, 2, 3], [(0, 1, 2)], [7], [((0, 1), -3)]⟩ : Mesh Int)⟩ :=
  claim_C5 reprInt pyInt?
    (⟨[0, 1, 2], [0, 0, 1], [1, 2, 3], [(0, 1, 2)], [7], [((0, 1), -3)]⟩ : Mesh Int)
    rfl rfl rfl (by decide) (by decide)
